import Mathlib

/-!
ShiftArray: a double-mirrored fixed-capacity shift register.

Shallow embedding of `src/shift_array.hpp` (`shift_array_t<_Type, _Capacity>`).

* The heap block `_data` of `2 * _Capacity - 1` slots is a `List α`.
* The pointers `_begin` and `_end` are element offsets from the block base, kept in `Int`
  because `push_front` and `push_back` move a cursor out of the block for a moment
  (`--_begin` below the base, `++_end` past one-past-the-end) before rebasing.
* Every dereference goes through `load` / `store`, which fail (`none`) outside the block;
  a failed `assert` is `none` as well.  So `some s` means: the call ran to completion
  without tripping a check and without touching memory outside the block.
* On the embedded operations pointer differences and comparisons are taken over the
  integers; under the cursor invariant every difference the code forms lies in `[0, N + 1]`.
  A count or index (`std::size_t`) is a `Nat`; offset arithmetic agrees with the machine as
  long as the scaled count does not wrap the 64-bit address space.  The checks as the machine
  evaluates them, with wrap-around, are `assert_pop_front_n`, `assert_pop_back_n`,
  `assert_nonempty` and `assert_index`, over `address`, `address_add`, `address_sub`.
* The template parameter `_Capacity` is the explicit argument `N`.
* `block_ok N s` records the data-model fact that the block has `2 * N - 1` slots; it is
  assumed wherever a theorem quantifies over states rather than over runs from `ctor`.
* `window s` is what a client sees when iterating from `begin()` to `end()`.
* Copy and move are about which object owns which block, so they are embedded one level
  lower: a memory `memory_t` made of a free store `heap_t` of blocks and of objects
  `object_t`, each holding a block address (or `nullptr`) with its two cursors.  Objects are
  named by position, so a call can name the same object as destination and as source.
  `object_view M x` is the `shift_array_t` state an object denotes, and `call f M x` runs a
  member function on it.  Elements are plain values (a trivially copyable `_Type`).
-/

namespace ShiftArray

/-- The three data members of `shift_array_t`. -/
structure shift_array_t (α : Type) where
  _data : List α
  _begin : Int
  _end : Int
deriving DecidableEq

variable {α : Type}

/-- Read `*ptr`, where `ptr = _data + p`. -/
def load (d : List α) (p : Int) : Option α :=
  if 0 ≤ p then d[p.toNat]? else none

/-- Write `*ptr = v`, where `ptr = _data + p`. -/
def store (d : List α) (p : Int) (v : α) : Option (List α) :=
  if 0 ≤ p ∧ p < (d.length : Int) then some (d.set p.toNat v) else none

/-- `static constexpr std::size_t capacity()`. -/
def capacity (N : Nat) : Nat := N

/-- `shift_array_t()`: a value-initialised block of `2 * N - 1` slots, both cursors at `N - 1`. -/
def ctor [Inhabited α] (N : Nat) : shift_array_t α :=
  ⟨List.replicate (2 * N - 1) default, (N : Int) - 1, (N : Int) - 1⟩

/-- `size()`: `_end - _begin`. -/
def size (s : shift_array_t α) : Nat := (s._end - s._begin).toNat

/-- `empty()`: `_begin == _end`. -/
def empty (s : shift_array_t α) : Bool := decide (s._begin = s._end)

/-- `clear()`: `_begin = _end = _data + (_Capacity - 1)`. -/
def clear (N : Nat) (s : shift_array_t α) : shift_array_t α :=
  ⟨s._data, (N : Int) - 1, (N : Int) - 1⟩

/-- `operator[](index) const`: the value read.  The check `_begin + index < _end` is taken on
offsets; the check with the machine's wrapping arithmetic is `assert_index`. -/
def index_read (s : shift_array_t α) (index : Nat) : Option α :=
  if s._begin + (index : Int) < s._end then load s._data (s._begin + index) else none

/-- Assignment through the reference returned by the mutable `operator[](index)`:
the slot is written in place and nothing is synchronised. -/
def index_write (s : shift_array_t α) (index : Nat) (value : α) : Option (shift_array_t α) :=
  if s._begin + (index : Int) < s._end then
    (store s._data (s._begin + index) value).map fun d => ⟨d, s._begin, s._end⟩
  else none

/-- `sync_unsafe(ptr)`: copy `*ptr` onto its mirror slot, if it has one. -/
def sync_unsafe (N : Nat) (s : shift_array_t α) (ptr : Int) : Option (shift_array_t α) :=
  if ptr ≥ (N : Int) then
    (load s._data ptr).bind fun x =>
      (store s._data (ptr - N) x).map fun d => ⟨d, s._begin, s._end⟩
  else if ptr < (N : Int) - 1 then
    (load s._data ptr).bind fun x =>
      (store s._data (ptr + N) x).map fun d => ⟨d, s._begin, s._end⟩
  else some s

/-- `sync(value_type* ptr)`. -/
def sync_ptr (N : Nat) (s : shift_array_t α) (ptr : Int) : Option (shift_array_t α) :=
  if ptr ≥ s._begin ∧ ptr < s._end then sync_unsafe N s ptr else none

/-- `sync(index)`.  The check is taken on offsets; with the machine's wrapping arithmetic it
is `assert_index`. -/
def sync (N : Nat) (s : shift_array_t α) (index : Nat) : Option (shift_array_t α) :=
  if s._begin + (index : Int) < s._end then sync_unsafe N s (s._begin + index) else none

/-- The loop of `sync()`: `for (ptr = ...; ptr != _end; ++ptr) sync_unsafe(ptr);`
run for at most `fuel` tests of the loop condition. -/
def sync_loop (N : Nat) : Nat → shift_array_t α → Int → Option (shift_array_t α)
  | 0, _, _ => none
  | fuel + 1, s, ptr =>
    if ptr = s._end then some s
    else ( sync_unsafe N s ptr).bind fun s1 => sync_loop N fuel s1 (ptr + 1)

/-- `sync()`: resynchronise the whole window.  A pointer that starts inside the block either
meets `_end` or leaves the block within `length + 1` steps, so this fuel is never the
reason for `none`. -/
def sync_all (N : Nat) (s : shift_array_t α) : Option (shift_array_t α) :=
  sync_loop N (s._data.length + 2) s s._begin

/-- `set_unsafe(ptr, value)`: `*ptr = value; sync_unsafe(ptr);`. -/
def set_unsafe (N : Nat) (s : shift_array_t α) (ptr : Int) (value : α) :
    Option (shift_array_t α) :=
  (store s._data ptr value).bind fun d => sync_unsafe N ⟨d, s._begin, s._end⟩ ptr

/-- `set(value_type* ptr, value)`. -/
def set_ptr (N : Nat) (s : shift_array_t α) (ptr : Int) (value : α) :
    Option (shift_array_t α) :=
  if ptr ≥ s._begin ∧ ptr < s._end then set_unsafe N s ptr value else none

/-- `set(index, value)`.  The check is taken on offsets; with the machine's wrapping
arithmetic it is `assert_index`. -/
def set (N : Nat) (s : shift_array_t α) (index : Nat) (value : α) :
    Option (shift_array_t α) :=
  if s._begin + (index : Int) < s._end then set_unsafe N s (s._begin + index) value else none

/-- `pop_front()`. -/
def pop_front (s : shift_array_t α) : Option (shift_array_t α) :=
  if s._begin < s._end then some ⟨s._data, s._begin + 1, s._end⟩ else none

/-- `pop_front(n)`.  `_begin + n` is exact arithmetic on offsets, which is what the machine
computes as long as the scaled count does not wrap the address space; the check with the
machine's wrapping arithmetic is `assert_pop_front_n`. -/
def pop_front_n (s : shift_array_t α) (n : Nat) : Option (shift_array_t α) :=
  if s._begin + (n : Int) ≤ s._end then some ⟨s._data, s._begin + n, s._end⟩ else none

/-- `pop_back()`. -/
def pop_back (s : shift_array_t α) : Option (shift_array_t α) :=
  if s._begin < s._end then some ⟨s._data, s._begin, s._end - 1⟩ else none

/-- `pop_back(n)`.  `_end - n` is exact arithmetic on offsets, which is what the machine
computes as long as the scaled count does not wrap the address space; the check with the
machine's wrapping arithmetic is `assert_pop_back_n`. -/
def pop_back_n (s : shift_array_t α) (n : Nat) : Option (shift_array_t α) :=
  if s._begin ≤ s._end - (n : Int) then some ⟨s._data, s._begin, s._end - n⟩ else none

/-- `push_front(value)`. -/
def push_front (N : Nat) (s : shift_array_t α) (value : α) : Option (shift_array_t α) :=
  let b0 := s._begin - 1
  let b1 := if b0 < 0 then b0 + N else b0
  let e1 := if b0 < 0 then s._end + N else s._end
  let e2 := if e1 - b1 > (N : Int) then b1 + N else e1
  set_unsafe N ⟨s._data, b1, e2⟩ b1 value

/-- `push_back(value)`. -/
def push_back (N : Nat) (s : shift_array_t α) (value : α) : Option (shift_array_t α) :=
  let e0 := s._end + 1
  let b1 := if e0 > 2 * (N : Int) - 1 then s._begin - N else s._begin
  let e1 := if e0 > 2 * (N : Int) - 1 then e0 - N else e0
  let b2 := if e1 - b1 > (N : Int) then e1 - N else b1
  set_unsafe N ⟨s._data, b2, e1⟩ (e1 - 1) value

/-- The elements met when iterating from `begin()` to `end()`. -/
def window (s : shift_array_t α) : List α :=
  (s._data.drop s._begin.toNat).take (s._end - s._begin).toNat

/-- Cursor invariant: `0 ≤ begin ≤ end ≤ 2N - 1` and `end - begin ≤ N`. -/
def cursor_inv (N : Nat) (s : shift_array_t α) : Prop :=
  0 ≤ s._begin ∧ s._begin ≤ s._end ∧ s._end ≤ 2 * (N : Int) - 1 ∧ s._end - s._begin ≤ (N : Int)

/-- The block has the `2 * N - 1` slots the constructor allocates. -/
def block_ok (N : Nat) (s : shift_array_t α) : Prop :=
  s._data.length = 2 * N - 1

/-- Mirror consistency: slot `i` equals slot `i + N` for `0 ≤ i ≤ N - 2`. -/
def mirror_inv (N : Nat) (s : shift_array_t α) : Prop :=
  ∀ i : Nat, i < N - 1 → s._data[i]? = s._data[i + N]?

/-- A well-formed buffer: block of the right length, cursor invariant, mirror consistency. -/
def valid (N : Nat) (s : shift_array_t α) : Prop :=
  block_ok N s ∧ cursor_inv N s ∧ mirror_inv N s

instance (N : Nat) (s : shift_array_t α) : Decidable (cursor_inv N s) :=
  inferInstanceAs (Decidable (0 ≤ s._begin ∧ s._begin ≤ s._end ∧ s._end ≤ 2 * (N : Int) - 1 ∧
    s._end - s._begin ≤ (N : Int)))

instance (N : Nat) (s : shift_array_t α) : Decidable (block_ok N s) :=
  inferInstanceAs (Decidable (s._data.length = 2 * N - 1))

instance [DecidableEq α] (N : Nat) (s : shift_array_t α) : Decidable (mirror_inv N s) :=
  inferInstanceAs (Decidable (∀ i : Nat, i < N - 1 → s._data[i]? = s._data[i + N]?))

instance [DecidableEq α] (N : Nat) (s : shift_array_t α) : Decidable (valid N s) :=
  inferInstanceAs (Decidable (block_ok N s ∧ cursor_inv N s ∧ mirror_inv N s))

/-- A sequence of in-place assignments `a[i] = v` through the mutable `operator[]`. -/
def index_writes (s : shift_array_t α) : List (Nat × α) → Option (shift_array_t α)
  | [] => some s
  | w :: ws => (index_write s w.1 w.2).bind fun s1 => index_writes s1 ws

/-- Consecutive `push_back` calls, one per value, in list order. -/
def push_back_many (N : Nat) (s : shift_array_t α) : List α → Option (shift_array_t α)
  | [] => some s
  | v :: vs => (push_back N s v).bind fun s1 => push_back_many N s1 vs

/-- Consecutive `push_front` calls, one per value, in list order. -/
def push_front_many (N : Nat) (s : shift_array_t α) : List α → Option (shift_array_t α)
  | [] => some s
  | v :: vs => (push_front N s v).bind fun s1 => push_front_many N s1 vs

/-- The mutating calls of the public interface that a client sequence is made of. -/
inductive Op (α : Type) where
  | push_back (v : α)
  | push_front (v : α)
  | pop_front
  | pop_back
  | pop_front_n (n : Nat)
  | pop_back_n (n : Nat)
  | set (i : Nat) (v : α)
  | clear

/-- One call on the buffer. -/
def step (N : Nat) (s : shift_array_t α) : Op α → Option (shift_array_t α)
  | Op.push_back v => push_back N s v
  | Op.push_front v => push_front N s v
  | Op.pop_front => pop_front s
  | Op.pop_back => pop_back s
  | Op.pop_front_n n => pop_front_n s n
  | Op.pop_back_n n => pop_back_n s n
  | Op.set i v => set N s i v
  | Op.clear => some (clear N s)

/-- A sequence of calls on the buffer, left to right. -/
def run (N : Nat) (s : shift_array_t α) : List (Op α) → Option (shift_array_t α)
  | [] => some s
  | op :: ops => (step N s op).bind fun s1 => run N s1 ops

/-- Reference bounded deque of capacity `N`, written from the specification: `push_back`
appends and drops the first element if the length would exceed `N`, `push_front` prepends and
drops the last element if the length would exceed `N`, pops drop from the respective end,
`set` replaces position `i`, `clear` empties.  A pop of more elements than are live, or a
`set` at `i ≥ length`, is a precondition violation (`none`). -/
def ref_step (N : Nat) (l : List α) : Op α → Option (List α)
  | Op.push_back v => some (if l.length + 1 > N then (l ++ [v]).drop 1 else l ++ [v])
  | Op.push_front v => some (if l.length + 1 > N then (v :: l).dropLast else v :: l)
  | Op.pop_front => if 0 < l.length then some (l.drop 1) else none
  | Op.pop_back => if 0 < l.length then some l.dropLast else none
  | Op.pop_front_n n => if n ≤ l.length then some (l.drop n) else none
  | Op.pop_back_n n => if n ≤ l.length then some (l.take (l.length - n)) else none
  | Op.set i v => if i < l.length then some (l.set i v) else none
  | Op.clear => some []

/-- The reference deque run on a sequence of calls. -/
def ref_run (N : Nat) (l : List α) : List (Op α) → Option (List α)
  | [] => some l
  | op :: ops => (ref_step N l op).bind fun l1 => ref_run N l1 ops

/-- A full buffer of capacity 4 whose window lies in the upper half of the block
(the state after `push_back` of 1, 2, 3, 4 on a fresh buffer). -/
def full_hi : shift_array_t Int := ⟨[2, 3, 4, 1, 2, 3, 4], 3, 7⟩

/-- A full buffer of capacity 4 whose window starts at offset 0
(the state after one more `push_back` of 5). -/
def full_lo : shift_array_t Int := ⟨[2, 3, 4, 5, 2, 3, 4], 0, 4⟩

/-- A client sequence over capacity 4 that evicts at both ends, rebases in both
directions, pops, overwrites and clears. -/
def demo_ops : List (Op Int) :=
  [Op.push_back 1, Op.push_back 2, Op.push_back 3, Op.push_back 4, Op.push_back 5,
   Op.push_front 9, Op.set 2 7, Op.pop_front, Op.pop_back_n 2, Op.push_front 8,
   Op.pop_back, Op.clear, Op.push_front 6, Op.pop_front_n 1, Op.push_back 3]

/-- Cursors `(_begin, _end)` of `push_back` after its first statement,
`if (++_end > _data + (2 * _Capacity) - 1) { _begin -= _Capacity; _end -= _Capacity; }`. -/
def push_back_rebase (N : Nat) (s : shift_array_t α) : Int × Int :=
  if s._end + 1 > 2 * (N : Int) - 1 then (s._begin - N, s._end + 1 - N)
  else (s._begin, s._end + 1)

/-- Cursors of `push_back` after its second statement,
`if (_end - _begin > _Capacity) _begin = _end - _Capacity;`. -/
def push_back_evict (N : Nat) (c : Int × Int) : Int × Int :=
  if c.2 - c.1 > (N : Int) then (c.2 - N, c.2) else c

/-- Cursors `(_begin, _end)` of `push_front` after its first statement,
`if (--_begin < _data) { _begin += _Capacity; _end += _Capacity; }`. -/
def push_front_rebase (N : Nat) (s : shift_array_t α) : Int × Int :=
  if s._begin - 1 < 0 then (s._begin - 1 + N, s._end + N) else (s._begin - 1, s._end)

/-- Cursors of `push_front` after its second statement,
`if (_end - _begin > _Capacity) _end = _begin + _Capacity;`. -/
def push_front_evict (N : Nat) (c : Int × Int) : Int × Int :=
  if c.2 - c.1 > (N : Int) then (c.1, c.1 + N) else c

/-- The slot that `sync_unsafe(ptr)` writes: `ptr - _Capacity` in its first branch,
`ptr + _Capacity` in its second, none otherwise. -/
def mirror_slot (N : Nat) (ptr : Int) : Option Int :=
  if ptr ≥ (N : Int) then some (ptr - N)
  else if ptr < (N : Int) - 1 then some (ptr + N)
  else none

/-- Three elements pushed at the back of a fresh buffer of capacity 4: `end` is at 6, so the
next `push_back` moves it to 7, one past the last slot. -/
def three_hi : shift_array_t Int := ⟨[2, 3, 0, 1, 2, 3, 0], 3, 6⟩

/-- A full buffer of capacity 1: the block is the single middle slot. -/
def full_one : shift_array_t Int := ⟨[5], 0, 1⟩

/-- Calls of a client that never writes in place: the mutating calls of `Op` and both
checked resynchronisations, `sync(index)` and `sync()`. -/
inductive Call (α : Type) where
  | op (o : Op α)
  | sync (i : Nat)
  | sync_all

/-- One call of a `Call` sequence. -/
def call_step (N : Nat) (s : shift_array_t α) : Call α → Option (shift_array_t α)
  | Call.op o => step N s o
  | Call.sync i => sync N s i
  | Call.sync_all => sync_all N s

/-- A `Call` sequence, left to right. -/
def call_run (N : Nat) (s : shift_array_t α) : List (Call α) → Option (shift_array_t α)
  | [] => some s
  | c :: cs => (call_step N s c).bind fun s1 => call_run N s1 cs

/-- A client sequence over capacity 4 that mixes pushes, pops, `set`, both syncs and `clear`. -/
def demo_calls : List (Call Int) :=
  [Call.op (Op.push_back 1), Call.op (Op.push_back 2), Call.op (Op.push_back 3),
   Call.sync 1, Call.op (Op.push_back 4), Call.op (Op.push_back 5), Call.sync_all,
   Call.op (Op.push_front 9), Call.op (Op.set 2 7), Call.op Op.pop_front, Call.sync 0,
   Call.op (Op.pop_back_n 2), Call.op Op.clear, Call.op (Op.push_front 6), Call.sync_all]

/-- Window-local mirror consistency: a pair `(i, i + N)` is required to hold equal values only
when one of its two slots lies inside `[begin, end)`. -/
def mirror_local (N : Nat) (s : shift_array_t α) : Prop :=
  ∀ i : Nat, i < N - 1 →
    ((s._begin ≤ (i : Int) ∧ (i : Int) < s._end) ∨
      (s._begin ≤ ((i + N : Nat) : Int) ∧ ((i + N : Nat) : Int) < s._end)) →
    s._data[i]? = s._data[i + N]?

instance [DecidableEq α] (N : Nat) (s : shift_array_t α) : Decidable (mirror_local N s) :=
  inferInstanceAs (Decidable (∀ i : Nat, i < N - 1 →
    ((s._begin ≤ (i : Int) ∧ (i : Int) < s._end) ∨
      (s._begin ≤ ((i + N : Nat) : Int) ∧ ((i + N : Nat) : Int) < s._end)) →
    s._data[i]? = s._data[i + N]?))

/-- Capacity 4, window `[1, 2, 3]` in slots 3..5; the pair of slots 2 and 6 lies outside the
window and holds unequal stale values. -/
def stale_outside : shift_array_t Int := ⟨[2, 3, 99, 1, 2, 3, 4], 3, 6⟩

/-- The free store seen by `new[]` / `delete[]`: entry `a` is the contents of the array
allocated at address `a`, or `none` once that array has been released. -/
abbrev heap_t (α : Type) := List (Option (List α))

/-- The three pointer members of one `shift_array_t` object as they sit in memory: `_data` is
`nullptr` (`none`) or the address of a block; `_begin` and `_end` are kept as element offsets
from `_data`.  The moved-from object, whose three pointers are all `nullptr`, has offsets 0. -/
structure object_t where
  _data : Option Nat
  _begin : Int
  _end : Int
deriving DecidableEq

/-- The state of a moved-from object: `_data = _begin = _end = nullptr`. -/
def null_object : object_t := ⟨none, 0, 0⟩

/-- `size()` on an object: `_end - _begin`. -/
def object_size (o : object_t) : Nat := (o._end - o._begin).toNat

/-- `empty()` on an object: `_begin == _end`. -/
def object_empty (o : object_t) : Bool := decide (o._begin = o._end)

/-- The live array a pointer refers to, if any. -/
def heap_block (H : heap_t α) (p : Option Nat) : Option (List α) :=
  p.bind fun a => (H[a]?).join

/-- The buffer state an object denotes: the contents of its block with its two cursors. -/
def view (H : heap_t α) (o : object_t) : Option (shift_array_t α) :=
  (heap_block H o._data).map fun d => ⟨d, o._begin, o._end⟩

/-- `new value_type[(2 * _Capacity) - 1]{}`: a fresh, value-initialised array at an address
not in use. -/
def heap_new [Inhabited α] (N : Nat) (H : heap_t α) : heap_t α × Nat :=
  (H ++ [some (List.replicate (2 * N - 1) default)], H.length)

/-- `delete[] p`: releases a live array; `delete[] nullptr` does nothing; anything else is
undefined (`none`). -/
def heap_delete (H : heap_t α) (p : Option Nat) : Option (heap_t α) :=
  match p with
  | none => some H
  | some a =>
    match heap_block H (some a) with
    | some _ => some (H.set a none)
    | none => none

/-- `std::memcpy(dst, src, ((2 * _Capacity) - 1) * sizeof(value_type))`: both arrays must be
live and hold at least `2 * N - 1` slots; the first `2 * N - 1` slots of the destination
become those of the source (nothing changes when both are the same array).  A block is a list
of element values: for a trivially copyable `_Type` the bytes of an element are its value, so
the byte copy is a copy of values; element types that own storage are outside this
embedding. -/
def heap_memcpy (N : Nat) (H : heap_t α) (dst src : Option Nat) : Option (heap_t α) :=
  match dst, src with
  | some a, some c =>
    match heap_block H (some a), heap_block H (some c) with
    | some bd, some bs =>
      if 2 * N - 1 ≤ bd.length ∧ 2 * N - 1 ≤ bs.length then
        some (H.set a (some (bs.take (2 * N - 1) ++ bd.drop (2 * N - 1))))
      else none
    | _, _ => none
  | _, _ => none

/-- A member function `f` run on the three pointers `o`: it reads and writes the block `o`
points to and updates the cursors. -/
def on_heap (f : shift_array_t α → Option (shift_array_t α)) (H : heap_t α) (o : object_t) :
    Option (heap_t α × object_t) :=
  match o._data with
  | none => none
  | some a =>
    (view H o).bind fun s =>
      (f s).map fun s1 => (H.set a (some s1._data), ⟨some a, s1._begin, s1._end⟩)

/-- Program memory: the free store of blocks and the `shift_array_t` objects.  An object is
identified by its position in `objs`, so one call can name the same object twice
(`this == &other`). -/
structure memory_t (α : Type) where
  heap : heap_t α
  objs : List object_t
deriving DecidableEq

/-- The buffer state denoted by the object at position `x`. -/
def object_view (M : memory_t α) (x : Nat) : Option (shift_array_t α) :=
  (M.objs[x]?).bind fun o => view M.heap o

/-- `shift_array_t()`: a new object, placed at position `M.objs.length`, with a new block. -/
def ctor_new [Inhabited α] (N : Nat) (M : memory_t α) : memory_t α :=
  ⟨(heap_new N M.heap).1,
    M.objs ++ [⟨some (heap_new N M.heap).2, (N : Int) - 1, (N : Int) - 1⟩]⟩

/-- `operator=(const shift_array_t& other)` called on the object `self`: `memcpy` of the whole
block, then both cursors re-derived at the source's offsets from the destination's own
`_data`. -/
def copy_assign (N : Nat) (M : memory_t α) (self other : Nat) : Option (memory_t α) :=
  (M.objs[self]?).bind fun s =>
    (M.objs[other]?).bind fun o =>
      (heap_memcpy N M.heap s._data o._data).map fun H1 =>
        ⟨H1, M.objs.set self ⟨s._data, o._begin, o._end⟩⟩

/-- `shift_array_t(const shift_array_t& other)`: a new object at position `M.objs.length` with
a new block, then `operator=(other)` on it. -/
def copy_ctor [Inhabited α] (N : Nat) (M : memory_t α) (other : Nat) : Option (memory_t α) :=
  copy_assign N ⟨(heap_new N M.heap).1, M.objs ++ [⟨some (heap_new N M.heap).2, 0, 0⟩]⟩
    M.objs.length other

/-- `shift_array_t(shift_array_t&& other)`: a new object at position `M.objs.length` takes the
three pointers of `other`, then `other` is set to null. -/
def move_ctor (M : memory_t α) (other : Nat) : Option (memory_t α) :=
  (M.objs[other]?).map fun o =>
    ⟨M.heap, (M.objs ++ [object_t.mk o._data o._begin o._end]).set other null_object⟩

/-- `operator=(shift_array_t&& other)` called on the object `self`: `delete[] _data`, take the
three pointers of `other`, then set `other` to null.  There is no test for
`this == &other`. -/
def move_assign (M : memory_t α) (self other : Nat) : Option (memory_t α) :=
  (M.objs[self]?).bind fun s =>
    (M.objs[other]?).bind fun o =>
      (heap_delete M.heap s._data).map fun H1 =>
        ⟨H1, (M.objs.set self ⟨o._data, o._begin, o._end⟩).set other null_object⟩

/-- `~shift_array_t()` on the object `self`: `delete[] _data`, then all three pointers null. -/
def dtor (M : memory_t α) (self : Nat) : Option (memory_t α) :=
  (M.objs[self]?).bind fun s =>
    (heap_delete M.heap s._data).map fun H1 => ⟨H1, M.objs.set self null_object⟩

/-- A member function `f` called on the object at position `x`. -/
def call (f : shift_array_t α → Option (shift_array_t α)) (M : memory_t α) (x : Nat) :
    Option (memory_t α) :=
  (M.objs[x]?).bind fun o =>
    (on_heap f M.heap o).map fun r => (⟨r.1, M.objs.set x r.2⟩ : memory_t α)

/-- Two buffers of capacity 4: object 0 is full (window `[1, 2, 3, 4]`), object 1 is fresh. -/
def demo_memory : memory_t Int :=
  ⟨[some [2, 3, 4, 1, 2, 3, 4], some [0, 0, 0, 0, 0, 0, 0]], [⟨some 0, 3, 7⟩, ⟨some 1, 3, 3⟩]⟩

/-- Object 1 constructed and filled with 1, 2, 3, 4; object 0 constructed and then moved
from (into object 2), so object 0 is null. -/
def demo_moved : memory_t Int :=
  ⟨[some [0, 0, 0, 0, 0, 0, 0], some [2, 3, 4, 1, 2, 3, 4]],
    [null_object, ⟨some 1, 3, 7⟩, ⟨some 0, 3, 3⟩]⟩

/-- One buffer of capacity 4, full with window `[1, 2, 3, 4]`. -/
def demo_single : memory_t Int := ⟨[some [2, 3, 4, 1, 2, 3, 4]], [⟨some 0, 3, 7⟩]⟩

/-- Well-formed memory: every object is null or points to a live block, and no two objects
share a block (each block is exclusively held). -/
def well_formed (M : memory_t α) : Prop :=
  (∀ x : Nat, x < M.objs.length →
    (M.objs.getD x null_object)._data = none ∨
      (heap_block M.heap (M.objs.getD x null_object)._data).isSome = true) ∧
  (∀ x : Nat, x < M.objs.length → ∀ y : Nat, y < M.objs.length → x ≠ y →
    (M.objs.getD x null_object)._data = none ∨
      (M.objs.getD x null_object)._data ≠ (M.objs.getD y null_object)._data)

instance (M : memory_t α) : Decidable (well_formed M) :=
  inferInstanceAs (Decidable (
    (∀ x : Nat, x < M.objs.length →
      (M.objs.getD x null_object)._data = none ∨
        (heap_block M.heap (M.objs.getD x null_object)._data).isSome = true) ∧
    (∀ x : Nat, x < M.objs.length → ∀ y : Nat, y < M.objs.length → x ≠ y →
      (M.objs.getD x null_object)._data = none ∨
        (M.objs.getD x null_object)._data ≠ (M.objs.getD y null_object)._data)))

end ShiftArray

namespace ShiftArray

variable {α : Type}

theorem window_getElem? (s : shift_array_t α) (i : Nat) :
    (window s)[i]? = if i < (s._end - s._begin).toNat then s._data[s._begin.toNat + i]? else none := by
  unfold window
  rw [List.getElem?_take, List.getElem?_drop]

theorem window_length (N : Nat) (s : shift_array_t α) (hb : block_ok N s) (hc : cursor_inv N s) :
    (window s).length = size s := by
  unfold window size
  unfold block_ok at hb
  obtain ⟨h0, h1, h2, h3⟩ := hc
  rw [List.length_take, List.length_drop, hb]
  omega

theorem set_unsafe_spec (N : Nat) (s : shift_array_t α) (p : Nat) (v : α)
    (hlen : s._data.length = 2 * N - 1) (hp : p < 2 * N - 1) :
    ∃ d, set_unsafe N s (p : Int) v = some ⟨d, s._begin, s._end⟩ ∧ d.length = 2 * N - 1 ∧
      ∀ j : Nat, d[j]? =
        if j < 2 * N - 1 ∧ (j = p ∨ j = p + N ∨ j + N = p) then some v else s._data[j]? := by
  have hst : store s._data (p : Int) v = some (s._data.set p v) := by
    unfold store
    rw [if_pos ⟨by omega, by omega⟩]
    simp
  unfold set_unsafe
  rw [hst]
  simp only [Option.some_bind]
  unfold sync_unsafe
  by_cases h1 : (p : Int) ≥ (N : Int)
  · rw [if_pos h1]
    have hl : load (s._data.set p v) (p : Int) = some v := by
      unfold load
      rw [if_pos (by omega)]
      simp [List.getElem?_set, hlen, hp]
    have hs2 : store (s._data.set p v) ((p : Int) - N) v
        = some ((s._data.set p v).set (p - N) v) := by
      unfold store
      rw [if_pos ⟨by omega, by simp [hlen]; omega⟩]
      congr 2
      omega
    rw [hl]
    simp only [Option.some_bind, hs2, Option.map_some']
    refine ⟨_, rfl, by simp [hlen], ?_⟩
    intro j
    simp only [List.getElem?_set, List.length_set, hlen]
    split_ifs <;> first | rfl | omega
  · rw [if_neg h1]
    by_cases h2 : (p : Int) < (N : Int) - 1
    · rw [if_pos h2]
      have hl : load (s._data.set p v) (p : Int) = some v := by
        unfold load
        rw [if_pos (by omega)]
        simp [List.getElem?_set, hlen, hp]
      have hs2 : store (s._data.set p v) ((p : Int) + N) v
          = some ((s._data.set p v).set (p + N) v) := by
        unfold store
        rw [if_pos ⟨by omega, by simp [hlen]; omega⟩]
        congr 2
      rw [hl]
      simp only [Option.some_bind, hs2, Option.map_some']
      refine ⟨_, rfl, by simp [hlen], ?_⟩
      intro j
      simp only [List.getElem?_set, List.length_set, hlen]
      split_ifs <;> first | rfl | omega
    · rw [if_neg h2]
      refine ⟨_, rfl, by simp [hlen], ?_⟩
      intro j
      simp only [List.getElem?_set, List.length_set, hlen]
      split_ifs <;> first | rfl | omega

theorem getElem?_idx_congr (d : List α) {i j : Nat} (h : i = j) : d[i]? = d[j]? := by
  rw [h]

theorem singleton_getElem? (v : α) (m : Nat) : [v][m]? = if m = 0 then some v else none := by
  cases m <;> simp

theorem window_getElem?_nat (d : List α) (b e i : Nat) :
    (window (⟨d, (b : Int), (e : Int)⟩ : shift_array_t α))[i]? =
      if i < e - b then d[b + i]? else none := by
  rw [window_getElem?]
  dsimp only
  rw [Int.toNat_ofNat, show ((e : Int) - (b : Int)).toNat = e - b by omega]

theorem window_length_nat (N : Nat) (d : List α) (b e : Nat) (hlen : d.length = 2 * N - 1)
    (he : e ≤ 2 * N - 1) :
    (window (⟨d, (b : Int), (e : Int)⟩ : shift_array_t α)).length = e - b := by
  unfold window
  dsimp only
  rw [List.length_take, List.length_drop, hlen]
  omega

theorem push_back_stages (N : Nat) (s : shift_array_t α) (v : α) :
    push_back N s v =
      set_unsafe N ⟨s._data, (push_back_evict N (push_back_rebase N s)).1,
        (push_back_evict N (push_back_rebase N s)).2⟩
        ((push_back_evict N (push_back_rebase N s)).2 - 1) v := by
  unfold push_back push_back_evict push_back_rebase
  dsimp only
  split_ifs <;> rfl

theorem push_front_stages (N : Nat) (s : shift_array_t α) (v : α) :
    push_front N s v =
      set_unsafe N ⟨s._data, (push_front_evict N (push_front_rebase N s)).1,
        (push_front_evict N (push_front_rebase N s)).2⟩
        (push_front_evict N (push_front_rebase N s)).1 v := by
  unfold push_front push_front_evict push_front_rebase
  dsimp only
  split_ifs <;> rfl

theorem push_back_cursor_nat (N : Nat) (hN : 0 < N) (d : List α) (b e : Nat) (h1 : b ≤ e)
    (h2 : e ≤ 2 * N - 1) (h3 : e ≤ b + N) :
    ∃ b1 e1 sh : Nat,
      push_back_evict N (push_back_rebase N (⟨d, (b : Int), (e : Int)⟩ : shift_array_t α))
        = ((b1 : Int), (e1 : Int)) ∧
      (sh = 0 ∨ sh = N) ∧ e1 + sh = e + 1 ∧ e1 ≤ 2 * N - 1 ∧
      b1 + sh = max b (e + 1 - N) ∧ b1 < e1 ∧ e1 ≤ b1 + N := by
  by_cases hA : (e : Int) + 1 > 2 * (N : Int) - 1
  · refine ⟨b - N, N, N, ?_, Or.inr rfl, ?_, ?_, ?_, ?_, ?_⟩
    · unfold push_back_evict push_back_rebase
      dsimp only
      rw [if_pos hA]
      dsimp only
      split_ifs <;> (apply Prod.ext <;> dsimp only <;> omega)
    all_goals omega
  · refine ⟨max b (e + 1 - N), e + 1, 0, ?_, Or.inl rfl, ?_, ?_, ?_, ?_, ?_⟩
    · unfold push_back_evict push_back_rebase
      dsimp only
      rw [if_neg hA]
      dsimp only
      split_ifs <;> (apply Prod.ext <;> dsimp only <;> omega)
    all_goals omega

theorem push_front_cursor_nat (N : Nat) (hN : 0 < N) (d : List α) (b e : Nat) (h1 : b ≤ e)
    (h2 : e ≤ 2 * N - 1) (h3 : e ≤ b + N) :
    ∃ b1 e1 sh : Nat,
      push_front_evict N (push_front_rebase N (⟨d, (b : Int), (e : Int)⟩ : shift_array_t α))
        = ((b1 : Int), (e1 : Int)) ∧
      (sh = 0 ∨ sh = N) ∧ b1 + 1 = b + sh ∧ e1 ≤ 2 * N - 1 ∧
      e1 = min (e + sh) (b1 + N) ∧ b1 < e1 := by
  by_cases hA : (b : Int) - 1 < 0
  · refine ⟨N - 1, min (e + N) (2 * N - 1), N, ?_, Or.inr rfl, ?_, ?_, ?_, ?_⟩
    · unfold push_front_evict push_front_rebase
      dsimp only
      rw [if_pos hA]
      dsimp only
      split_ifs <;> (apply Prod.ext <;> dsimp only <;> omega)
    all_goals omega
  · refine ⟨b - 1, min e (b - 1 + N), 0, ?_, Or.inl rfl, ?_, ?_, ?_, ?_⟩
    · unfold push_front_evict push_front_rebase
      dsimp only
      rw [if_neg hA]
      dsimp only
      split_ifs <;> (apply Prod.ext <;> dsimp only <;> omega)
    all_goals omega

theorem push_back_window_core (N : Nat) (d d1 : List α) (b e b1 e1 sh : Nat) (v : α)
    (hlen : d.length = 2 * N - 1) (h1 : b ≤ e) (h2 : e ≤ 2 * N - 1) (h3 : e ≤ b + N)
    (hsh : sh = 0 ∨ sh = N) (he1 : e1 + sh = e + 1) (he1' : e1 ≤ 2 * N - 1)
    (hb1 : b1 + sh = max b (e + 1 - N))
    (hm : ∀ i : Nat, i < N - 1 → (b ≤ i ∧ i < e ∨ b ≤ i + N ∧ i + N < e) → d[i]? = d[i + N]?)
    (hd1 : ∀ j : Nat, d1[j]? =
      if j < 2 * N - 1 ∧ (j = e1 - 1 ∨ j = e1 - 1 + N ∨ j + N = e1 - 1) then some v else d[j]?) :
    window (⟨d1, (b1 : Int), (e1 : Int)⟩ : shift_array_t α)
      = (window (⟨d, (b : Int), (e : Int)⟩ : shift_array_t α) ++ [v]).drop (e - b + 1 - N) := by
  apply List.ext_getElem?
  intro i
  rw [window_getElem?_nat, List.getElem?_drop, List.getElem?_append,
    window_length_nat N d b e hlen h2, window_getElem?_nat, hd1, singleton_getElem?]
  rcases Nat.lt_trichotomy (i + 1) (e1 - b1) with hlt | heq | hgt
  · rw [if_pos (by omega), if_neg (by omega), if_pos (by omega), if_pos (by omega)]
    rcases hsh with h0 | hN
    · exact getElem?_idx_congr d (by omega)
    · rw [hm (b1 + i) (by omega) (by omega)]
      exact getElem?_idx_congr d (by omega)
  · rw [if_pos (by omega), if_pos (by omega), if_neg (by omega), if_pos (by omega)]
  · rw [if_neg (by omega), if_neg (by omega), if_neg (by omega)]

theorem push_front_window_core (N : Nat) (d d1 : List α) (b e b1 e1 sh : Nat) (v : α)
    (h1 : b ≤ e) (h2 : e ≤ 2 * N - 1) (h3 : e ≤ b + N)
    (hsh : sh = 0 ∨ sh = N) (hb1 : b1 + 1 = b + sh) (he1' : e1 ≤ 2 * N - 1)
    (he1 : e1 = min (e + sh) (b1 + N))
    (hm : ∀ i : Nat, i < N - 1 → (b ≤ i ∧ i < e ∨ b ≤ i + N ∧ i + N < e) → d[i]? = d[i + N]?)
    (hd1 : ∀ j : Nat, d1[j]? =
      if j < 2 * N - 1 ∧ (j = b1 ∨ j = b1 + N ∨ j + N = b1) then some v else d[j]?) :
    window (⟨d1, (b1 : Int), (e1 : Int)⟩ : shift_array_t α)
      = (v :: window (⟨d, (b : Int), (e : Int)⟩ : shift_array_t α)).take
          (min (e - b + 1) N) := by
  apply List.ext_getElem?
  intro i
  rw [window_getElem?_nat, List.getElem?_take, hd1]
  rcases i with _ | i
  · rw [if_pos (by omega), if_pos (by omega), if_pos (by omega), List.getElem?_cons_zero]
  · rw [List.getElem?_cons_succ, window_getElem?_nat]
    by_cases hlt : i + 1 < e1 - b1
    · rw [if_pos hlt, if_neg (by omega), if_pos (by omega), if_pos (by omega)]
      rcases hsh with h0 | hN
      · exact getElem?_idx_congr d (by omega)
      · rw [hm (b + i) (by omega) (by omega)]
        exact getElem?_idx_congr d (by omega)
    · rw [if_neg hlt, if_neg (by omega)]

theorem mirror_inv_write (N : Nat) (d d1 : List α) (p : Nat) (v : α) (hp : p < 2 * N - 1)
    (hm : ∀ i : Nat, i < N - 1 → d[i]? = d[i + N]?)
    (hd1 : ∀ j : Nat, d1[j]? =
      if j < 2 * N - 1 ∧ (j = p ∨ j = p + N ∨ j + N = p) then some v else d[j]?) :
    ∀ i : Nat, i < N - 1 → d1[i]? = d1[i + N]? := by
  intro i hi
  rw [hd1, hd1]
  by_cases hc : i = p ∨ i + N = p
  · rw [if_pos ⟨by omega, by omega⟩, if_pos ⟨by omega, by omega⟩]
  · rw [if_neg (by omega), if_neg (by omega)]
    exact hm i hi

theorem mirror_local_write (N : Nat) (d d1 : List α) (b e b1 e1 p : Nat) (v : α)
    (hp : p < 2 * N - 1)
    (hm : ∀ i : Nat, i < N - 1 → (b ≤ i ∧ i < e ∨ b ≤ i + N ∧ i + N < e) → d[i]? = d[i + N]?)
    (hold : ∀ i : Nat, i < N - 1 → (b1 ≤ i ∧ i < e1 ∨ b1 ≤ i + N ∧ i + N < e1) →
      i ≠ p → i + N ≠ p → (b ≤ i ∧ i < e ∨ b ≤ i + N ∧ i + N < e))
    (hd1 : ∀ j : Nat, d1[j]? =
      if j < 2 * N - 1 ∧ (j = p ∨ j = p + N ∨ j + N = p) then some v else d[j]?) :
    ∀ i : Nat, i < N - 1 → (b1 ≤ i ∧ i < e1 ∨ b1 ≤ i + N ∧ i + N < e1) →
      d1[i]? = d1[i + N]? := by
  intro i hi hwin
  rw [hd1, hd1]
  by_cases hc : i = p ∨ i + N = p
  · rw [if_pos ⟨by omega, by omega⟩, if_pos ⟨by omega, by omega⟩]
  · rw [if_neg (by omega), if_neg (by omega)]
    exact hm i hi (hold i hi hwin (by omega) (by omega))

theorem mirror_local_nat (N : Nat) (d : List α) (b e : Nat) :
    mirror_local N (⟨d, (b : Int), (e : Int)⟩ : shift_array_t α) ↔
      ∀ i : Nat, i < N - 1 → (b ≤ i ∧ i < e ∨ b ≤ i + N ∧ i + N < e) → d[i]? = d[i + N]? := by
  unfold mirror_local
  dsimp only
  constructor
  · intro h i hi hw
    exact h i hi (by omega)
  · intro h i hi hw
    exact h i hi (by omega)

theorem push_back_local (N : Nat) (s : shift_array_t α) (v : α) (hb : block_ok N s)
    (hc : cursor_inv N s) (hm : mirror_local N s) :
    ∃ s1, push_back N s v = some s1 ∧ block_ok N s1 ∧ cursor_inv N s1 ∧ mirror_local N s1 ∧
      window s1 = (window s ++ [v]).drop (size s + 1 - N) ∧ size s1 = min (size s + 1) N ∧
      (mirror_inv N s → mirror_inv N s1) := by
  obtain ⟨h0, h1, h2, h3⟩ := hc
  rcases s with ⟨d, b, e⟩
  simp only [block_ok, size] at *
  lift b to Nat using h0
  lift e to Nat using (by omega)
  rw [mirror_local_nat] at hm
  obtain ⟨b1, e1, sh, hcur, hsh, he1, he1', hb1, hlt, hle⟩ :=
    push_back_cursor_nat N (by omega) d b e (by omega) (by omega) (by omega)
  obtain ⟨d1, hset, hd1len, hd1⟩ := set_unsafe_spec N ⟨d, (b1 : Int), (e1 : Int)⟩ (e1 - 1) v hb
    (by omega)
  dsimp only at hset hd1
  have hrun : push_back N ⟨d, (b : Int), (e : Int)⟩ v = some ⟨d1, (b1 : Int), (e1 : Int)⟩ := by
    rw [push_back_stages, hcur, ← hset]
    dsimp only
    rw [show (e1 : Int) - 1 = ((e1 - 1 : Nat) : Int) by omega]
  refine ⟨_, hrun, hd1len, ⟨?_, ?_, ?_, ?_⟩, ?_, ?_, ?_,
    fun hmi => mirror_inv_write N d d1 (e1 - 1) v (by omega) hmi hd1⟩
  any_goals (dsimp only; omega)
  · rw [mirror_local_nat]
    exact mirror_local_write N d d1 b e b1 e1 (e1 - 1) v (by omega) hm
      (fun i hi hw _ _ => by omega) hd1
  · rw [show ((e : Int) - (b : Int)).toNat = e - b by omega]
    exact push_back_window_core N d d1 b e b1 e1 sh v hb (by omega) (by omega) (by omega) hsh
      he1 he1' hb1 hm hd1

theorem push_front_local (N : Nat) (s : shift_array_t α) (v : α) (hb : block_ok N s)
    (hc : cursor_inv N s) (hm : mirror_local N s) :
    ∃ s1, push_front N s v = some s1 ∧ block_ok N s1 ∧ cursor_inv N s1 ∧ mirror_local N s1 ∧
      window s1 = (v :: window s).take (min (size s + 1) N) ∧ size s1 = min (size s + 1) N ∧
      (mirror_inv N s → mirror_inv N s1) := by
  obtain ⟨h0, h1, h2, h3⟩ := hc
  rcases s with ⟨d, b, e⟩
  simp only [block_ok, size] at *
  lift b to Nat using h0
  lift e to Nat using (by omega)
  rw [mirror_local_nat] at hm
  obtain ⟨b1, e1, sh, hcur, hsh, hb1, he1', he1, hlt⟩ :=
    push_front_cursor_nat N (by omega) d b e (by omega) (by omega) (by omega)
  obtain ⟨d1, hset, hd1len, hd1⟩ := set_unsafe_spec N ⟨d, (b1 : Int), (e1 : Int)⟩ b1 v hb
    (by omega)
  dsimp only at hset hd1
  have hrun : push_front N ⟨d, (b : Int), (e : Int)⟩ v = some ⟨d1, (b1 : Int), (e1 : Int)⟩ := by
    rw [push_front_stages, hcur, ← hset]
  refine ⟨_, hrun, hd1len, ⟨?_, ?_, ?_, ?_⟩, ?_, ?_, ?_,
    fun hmi => mirror_inv_write N d d1 b1 v (by omega) hmi hd1⟩
  any_goals (dsimp only; omega)
  · rw [mirror_local_nat]
    exact mirror_local_write N d d1 b e b1 e1 b1 v (by omega) hm
      (fun i hi hw _ _ => by omega) hd1
  · rw [show ((e : Int) - (b : Int)).toNat = e - b by omega]
    exact push_front_window_core N d d1 b e b1 e1 sh v (by omega) (by omega) (by omega) hsh
      hb1 he1' he1 hm hd1

theorem mirror_inv_local (N : Nat) (s : shift_array_t α) (hm : mirror_inv N s) :
    mirror_local N s :=
  fun i hi _ => hm i hi

theorem push_back_valid (N : Nat) (_hN : 0 < N) (s : shift_array_t α) (v : α) (h : valid N s) :
    ∃ s1, push_back N s v = some s1 ∧ valid N s1 ∧
      window s1 = (window s ++ [v]).drop (size s + 1 - N) ∧ size s1 = min (size s + 1) N := by
  obtain ⟨hb, hc, hm⟩ := h
  obtain ⟨s1, hs, hb1, hc1, _, hw, hsz, hmi⟩ :=
    push_back_local N s v hb hc (mirror_inv_local N s hm)
  exact ⟨s1, hs, ⟨hb1, hc1, hmi hm⟩, hw, hsz⟩

theorem push_front_valid (N : Nat) (_hN : 0 < N) (s : shift_array_t α) (v : α) (h : valid N s) :
    ∃ s1, push_front N s v = some s1 ∧ valid N s1 ∧
      window s1 = (v :: window s).take (min (size s + 1) N) ∧ size s1 = min (size s + 1) N := by
  obtain ⟨hb, hc, hm⟩ := h
  obtain ⟨s1, hs, hb1, hc1, _, hw, hsz, hmi⟩ :=
    push_front_local N s v hb hc (mirror_inv_local N s hm)
  exact ⟨s1, hs, ⟨hb1, hc1, hmi hm⟩, hw, hsz⟩

theorem pop_front_n_spec (N : Nat) (s : shift_array_t α) (n : Nat) (hb : block_ok N s)
    (hc : cursor_inv N s) (hn : n ≤ size s) :
    pop_front_n s n = some ⟨s._data, s._begin + n, s._end⟩ ∧
      cursor_inv N ⟨s._data, s._begin + n, s._end⟩ ∧
      window (⟨s._data, s._begin + n, s._end⟩ : shift_array_t α) = (window s).drop n ∧
      size (⟨s._data, s._begin + n, s._end⟩ : shift_array_t α) = size s - n := by
  obtain ⟨h0, h1, h2, h3⟩ := hc
  rcases s with ⟨d, b, e⟩
  simp only [block_ok, size] at *
  lift b to Nat using h0
  lift e to Nat using (by omega)
  refine ⟨?_, ⟨?_, ?_, ?_, ?_⟩, ?_, ?_⟩
  · unfold pop_front_n
    rw [if_pos (by dsimp only; omega)]
  any_goals (dsimp only; omega)
  · apply List.ext_getElem?
    intro i
    rw [window_getElem?, List.getElem?_drop, window_getElem?]
    dsimp only
    split_ifs <;> first | rfl | omega | skip
    exact getElem?_idx_congr d (by omega)

theorem pop_back_n_spec (N : Nat) (s : shift_array_t α) (n : Nat) (hb : block_ok N s)
    (hc : cursor_inv N s) (hn : n ≤ size s) :
    pop_back_n s n = some ⟨s._data, s._begin, s._end - n⟩ ∧
      cursor_inv N ⟨s._data, s._begin, s._end - n⟩ ∧
      window (⟨s._data, s._begin, s._end - n⟩ : shift_array_t α)
        = (window s).take (size s - n) ∧
      size (⟨s._data, s._begin, s._end - n⟩ : shift_array_t α) = size s - n := by
  obtain ⟨h0, h1, h2, h3⟩ := hc
  rcases s with ⟨d, b, e⟩
  simp only [block_ok, size] at *
  lift b to Nat using h0
  lift e to Nat using (by omega)
  refine ⟨?_, ⟨?_, ?_, ?_, ?_⟩, ?_, ?_⟩
  · unfold pop_back_n
    rw [if_pos (by dsimp only; omega)]
  any_goals (dsimp only; omega)
  · apply List.ext_getElem?
    intro i
    rw [window_getElem?, List.getElem?_take, window_getElem?]
    dsimp only
    split_ifs <;> first | rfl | omega

theorem pop_front_eq_n (s : shift_array_t α) : pop_front s = pop_front_n s 1 := by
  unfold pop_front pop_front_n
  by_cases h : s._begin < s._end
  · rw [if_pos h, if_pos (by omega)]
    simp
  · rw [if_neg h, if_neg (by omega)]

theorem pop_back_eq_n (s : shift_array_t α) : pop_back s = pop_back_n s 1 := by
  unfold pop_back pop_back_n
  by_cases h : s._begin < s._end
  · rw [if_pos h, if_pos (by omega)]
    simp
  · rw [if_neg h, if_neg (by omega)]

theorem set_spec (N : Nat) (s : shift_array_t α) (i : Nat) (v : α) (hb : block_ok N s)
    (hc : cursor_inv N s) (hi : i < size s) :
    ∃ d1, set N s i v = some ⟨d1, s._begin, s._end⟩ ∧ d1.length = 2 * N - 1 ∧
      (∀ j : Nat, d1[j]? =
        if j < 2 * N - 1 ∧ (j = s._begin.toNat + i ∨ j = s._begin.toNat + i + N ∨
            j + N = s._begin.toNat + i) then some v else s._data[j]?) ∧
      window (⟨d1, s._begin, s._end⟩ : shift_array_t α) = (window s).set i v := by
  have hwl := window_length N s hb hc
  obtain ⟨h0, h1, h2, h3⟩ := hc
  rcases s with ⟨d, b, e⟩
  simp only [block_ok, size] at *
  lift b to Nat using h0
  lift e to Nat using (by omega)
  obtain ⟨d1, hset, hd1len, hd1⟩ := set_unsafe_spec N ⟨d, (b : Int), (e : Int)⟩ (b + i) v hb
    (by omega)
  dsimp only at hset hd1
  refine ⟨d1, ?_, hd1len, ?_, ?_⟩
  · unfold set
    rw [if_pos (by dsimp only; omega)]
    dsimp only
    rw [← hset]
    congr 1
  · intro j
    rw [hd1]
    simp only [Int.toNat_ofNat]
  · apply List.ext_getElem?
    intro k
    rw [window_getElem?, List.getElem?_set, hwl, window_getElem?]
    simp only [hd1, Int.toNat_ofNat]
    split_ifs <;> first | rfl | omega

theorem set_valid (N : Nat) (s : shift_array_t α) (i : Nat) (v : α) (h : valid N s)
    (hi : i < size s) :
    ∃ s1, set N s i v = some s1 ∧ valid N s1 ∧ window s1 = (window s).set i v := by
  obtain ⟨hb, hc, hm⟩ := h
  obtain ⟨d1, hset, hlen, hd1, hw⟩ := set_spec N s i v hb hc hi
  refine ⟨_, hset, ⟨hlen, hc, ?_⟩, hw⟩
  intro j hj
  dsimp only
  rw [hd1, hd1]
  obtain ⟨h0, h1, h2, h3⟩ := hc
  unfold size at hi
  split_ifs <;> first | rfl | omega | exact hm j hj

theorem clear_valid (N : Nat) (hN : 0 < N) (s : shift_array_t α) (h : valid N s) :
    valid N (clear N s) ∧ window (clear N s) = [] := by
  obtain ⟨hb, hc, hm⟩ := h
  refine ⟨⟨hb, ⟨?_, ?_, ?_, ?_⟩, hm⟩, ?_⟩
  any_goals (unfold clear; dsimp only; omega)
  unfold window clear
  simp

theorem ctor_valid [Inhabited α] (N : Nat) (hN : 0 < N) :
    valid N (ctor N : shift_array_t α) ∧ window (ctor N : shift_array_t α) = [] := by
  refine ⟨⟨?_, ⟨?_, ?_, ?_, ?_⟩, ?_⟩, ?_⟩
  · simp [block_ok, ctor]
  any_goals (unfold ctor; dsimp only; omega)
  · intro i hi
    unfold ctor
    dsimp only
    rw [List.getElem?_replicate, List.getElem?_replicate, if_pos (by omega), if_pos (by omega)]
  · unfold window ctor
    simp

theorem step_sim (N : Nat) (hN : 0 < N) (s : shift_array_t α) (op : Op α) (h : valid N s) :
    (step N s op).map window = ref_step N (window s) op ∧
      ∀ s1, step N s op = some s1 → valid N s1 := by
  have hwl := window_length N s h.1 h.2.1
  cases op with
  | push_back v =>
    obtain ⟨s1, hs, hv, hw, hsz⟩ := push_back_valid N hN s v h
    simp only [step, ref_step, hs, Option.map_some', Option.some.injEq, hw, hwl]
    refine ⟨?_, fun s2 h2 => h2 ▸ hv⟩
    split_ifs with hc
    · rw [show size s + 1 - N = 1 by
        have := h.2.1.2.2.2
        unfold size at hc ⊢
        omega]
    · rw [show size s + 1 - N = 0 by omega]
      rfl
  | push_front v =>
    obtain ⟨s1, hs, hv, hw, hsz⟩ := push_front_valid N hN s v h
    simp only [step, ref_step, hs, Option.map_some', Option.some.injEq, hw, hwl]
    refine ⟨?_, fun s2 h2 => h2 ▸ hv⟩
    split_ifs with hc
    · rw [List.dropLast_eq_take]
      congr 1
      have := h.2.1.2.2.2
      simp only [List.length_cons, hwl]
      unfold size at hc ⊢
      omega
    · apply List.take_of_length_le
      simp only [List.length_cons, hwl]
      omega
  | pop_front =>
    simp only [step, ref_step, pop_front_eq_n, hwl]
    by_cases hc : 0 < size s
    · obtain ⟨hs, hv, hw, _⟩ := pop_front_n_spec N s 1 h.1 h.2.1 hc
      rw [hs, if_pos hc]
      exact ⟨by rw [Option.map_some', hw], fun s2 h2 => by
        rw [Option.some.injEq] at h2; exact h2 ▸ ⟨h.1, hv, h.2.2⟩⟩
    · rw [if_neg hc]
      have hn : pop_front_n s 1 = none := by
        unfold pop_front_n
        unfold size at hc
        rw [if_neg (by omega)]
      rw [hn]
      exact ⟨rfl, fun s2 h2 => by cases h2⟩
  | pop_back =>
    simp only [step, ref_step, pop_back_eq_n, hwl]
    by_cases hc : 0 < size s
    · obtain ⟨hs, hv, hw, _⟩ := pop_back_n_spec N s 1 h.1 h.2.1 hc
      rw [hs, if_pos hc]
      exact ⟨by rw [Option.map_some', hw, List.dropLast_eq_take, hwl], fun s2 h2 => by
        rw [Option.some.injEq] at h2; exact h2 ▸ ⟨h.1, hv, h.2.2⟩⟩
    · rw [if_neg hc]
      have hn : pop_back_n s 1 = none := by
        unfold pop_back_n
        unfold size at hc
        rw [if_neg (by omega)]
      rw [hn]
      exact ⟨rfl, fun s2 h2 => by cases h2⟩
  | pop_front_n n =>
    simp only [step, ref_step, hwl]
    by_cases hc : n ≤ size s
    · obtain ⟨hs, hv, hw, _⟩ := pop_front_n_spec N s n h.1 h.2.1 hc
      rw [hs, if_pos hc]
      exact ⟨by rw [Option.map_some', hw], fun s2 h2 => by
        rw [Option.some.injEq] at h2; exact h2 ▸ ⟨h.1, hv, h.2.2⟩⟩
    · rw [if_neg hc]
      have hn : pop_front_n s n = none := by
        have := h.2.1.2.1
        unfold pop_front_n
        unfold size at hc
        rw [if_neg (by omega)]
      rw [hn]
      exact ⟨rfl, fun s2 h2 => by cases h2⟩
  | pop_back_n n =>
    simp only [step, ref_step, hwl]
    by_cases hc : n ≤ size s
    · obtain ⟨hs, hv, hw, _⟩ := pop_back_n_spec N s n h.1 h.2.1 hc
      rw [hs, if_pos hc]
      exact ⟨by rw [Option.map_some', hw], fun s2 h2 => by
        rw [Option.some.injEq] at h2; exact h2 ▸ ⟨h.1, hv, h.2.2⟩⟩
    · rw [if_neg hc]
      have hn : pop_back_n s n = none := by
        have := h.2.1.2.1
        unfold pop_back_n
        unfold size at hc
        rw [if_neg (by omega)]
      rw [hn]
      exact ⟨rfl, fun s2 h2 => by cases h2⟩
  | set i v =>
    simp only [step, ref_step, hwl]
    by_cases hc : i < size s
    · obtain ⟨s1, hs, hv, hw⟩ := set_valid N s i v h hc
      rw [hs, if_pos hc]
      exact ⟨by rw [Option.map_some', hw], fun s2 h2 => by
        rw [Option.some.injEq] at h2; exact h2 ▸ hv⟩
    · rw [if_neg hc]
      have hn : set N s i v = none := by
        have := h.2.1.2.1
        unfold set
        unfold size at hc
        rw [if_neg (by omega)]
      rw [hn]
      exact ⟨rfl, fun s2 h2 => by cases h2⟩
  | clear =>
    obtain ⟨hv, hw⟩ := clear_valid N hN s h
    simp only [step, ref_step, Option.map_some', hw]
    exact ⟨trivial, fun s2 h2 => by rw [Option.some.injEq] at h2; exact h2 ▸ hv⟩

theorem run_sim (N : Nat) (hN : 0 < N) (ops : List (Op α)) :
    ∀ s : shift_array_t α, valid N s →
      (run N s ops).map window = ref_run N (window s) ops ∧
        ∀ s1, run N s ops = some s1 → valid N s1 := by
  induction ops with
  | nil =>
    intro s h
    exact ⟨rfl, fun s1 h1 => by
      simp only [run, Option.some.injEq] at h1; exact h1 ▸ h⟩
  | cons op ops ih =>
    intro s h
    obtain ⟨hw, hv⟩ := step_sim N hN s op h
    simp only [run, ref_run]
    cases hs : step N s op with
    | none =>
      rw [hs] at hw
      rw [← hw]
      exact ⟨rfl, fun s1 h1 => by cases h1⟩
    | some s1 =>
      rw [hs] at hw
      rw [← hw]
      exact ih s1 (hv s1 hs)

theorem sync_unsafe_cursors (N : Nat) (s s1 : shift_array_t α) (p : Int)
    (h : sync_unsafe N s p = some s1) : s1._begin = s._begin ∧ s1._end = s._end := by
  unfold sync_unsafe at h
  split_ifs at h
  · cases hl : load s._data p with
    | none => rw [hl] at h; cases h
    | some x =>
      rw [hl, Option.some_bind] at h
      cases hs : store s._data (p - N) x with
      | none => rw [hs] at h; cases h
      | some d =>
        rw [hs, Option.map_some', Option.some.injEq] at h
        subst h
        exact ⟨rfl, rfl⟩
  · cases hl : load s._data p with
    | none => rw [hl] at h; cases h
    | some x =>
      rw [hl, Option.some_bind] at h
      cases hs : store s._data (p + N) x with
      | none => rw [hs] at h; cases h
      | some d =>
        rw [hs, Option.map_some', Option.some.injEq] at h
        subst h
        exact ⟨rfl, rfl⟩
  · rw [Option.some.injEq] at h
    subst h
    exact ⟨rfl, rfl⟩

theorem set_unsafe_cursors (N : Nat) (s s1 : shift_array_t α) (p : Int) (v : α)
    (h : set_unsafe N s p v = some s1) : s1._begin = s._begin ∧ s1._end = s._end := by
  unfold set_unsafe at h
  cases hs : store s._data p v with
  | none => rw [hs] at h; cases h
  | some d =>
    rw [hs, Option.some_bind] at h
    exact sync_unsafe_cursors N ⟨d, s._begin, s._end⟩ s1 p h

theorem sync_unsafe_spec (N : Nat) (s : shift_array_t α) (p : Nat)
    (hlen : s._data.length = 2 * N - 1) (hp : p < 2 * N - 1) :
    ∃ d, sync_unsafe N s (p : Int) = some ⟨d, s._begin, s._end⟩ ∧ d.length = 2 * N - 1 ∧
      ∀ j : Nat, d[j]? =
        if j < 2 * N - 1 ∧ (j = p + N ∨ j + N = p) then s._data[p]? else s._data[j]? := by
  obtain ⟨x, hx⟩ : ∃ x, s._data[p]? = some x := by
    rw [List.getElem?_eq_getElem (by omega)]
    exact ⟨_, rfl⟩
  have hl : load s._data (p : Int) = some x := by
    unfold load
    rw [if_pos (by omega)]
    simpa using hx
  unfold sync_unsafe
  by_cases h1 : (p : Int) ≥ (N : Int)
  · rw [if_pos h1]
    have hs2 : store s._data ((p : Int) - N) x = some (s._data.set (p - N) x) := by
      unfold store
      rw [if_pos ⟨by omega, by omega⟩]
      congr 2
      omega
    rw [hl]
    simp only [Option.some_bind, hs2, Option.map_some']
    refine ⟨_, rfl, by simp [hlen], ?_⟩
    intro j
    simp only [List.getElem?_set, hlen, hx]
    split_ifs <;> first | rfl | omega
  · rw [if_neg h1]
    by_cases h2 : (p : Int) < (N : Int) - 1
    · rw [if_pos h2]
      have hs2 : store s._data ((p : Int) + N) x = some (s._data.set (p + N) x) := by
        unfold store
        rw [if_pos ⟨by omega, by omega⟩]
        congr 2
      rw [hl]
      simp only [Option.some_bind, hs2, Option.map_some']
      refine ⟨_, rfl, by simp [hlen], ?_⟩
      intro j
      simp only [List.getElem?_set, hlen, hx]
      split_ifs <;> first | rfl | omega
    · rw [if_neg h2]
      refine ⟨_, rfl, hlen, ?_⟩
      intro j
      rw [if_neg (by omega)]

theorem sync_loop_spec (N : Nat) (b : Int) (e : Nat) (he : e ≤ 2 * N - 1) (k : Nat) :
    ∀ (d : List α) (ptr fuel : Nat), d.length = 2 * N - 1 → ptr + k = e → k ≤ N → k < fuel →
      ∃ d1, sync_loop N fuel ⟨d, b, (e : Int)⟩ (ptr : Int) = some ⟨d1, b, (e : Int)⟩ ∧
        d1.length = 2 * N - 1 ∧
        ∀ j : Nat, d1[j]? =
          if j < 2 * N - 1 ∧ ptr ≤ j + N ∧ j + N < e then d[j + N]?
          else if j < 2 * N - 1 ∧ ptr + N ≤ j ∧ j < e + N then d[j - N]?
          else d[j]? := by
  induction k with
  | zero =>
    intro d ptr fuel hlen hpk _ hf
    obtain ⟨f, rfl⟩ : ∃ f, fuel = f + 1 := ⟨fuel - 1, by omega⟩
    refine ⟨d, ?_, hlen, ?_⟩
    · rw [sync_loop, if_pos (by dsimp only; omega)]
    · intro j
      rw [if_neg (by omega), if_neg (by omega)]
  | succ k ih =>
    intro d ptr fuel hlen hpk hkN hf
    obtain ⟨f, rfl⟩ : ∃ f, fuel = f + 1 := ⟨fuel - 1, by omega⟩
    obtain ⟨d0, hsy, hd0len, hd0⟩ := sync_unsafe_spec N ⟨d, b, (e : Int)⟩ ptr hlen (by omega)
    dsimp only at hsy hd0
    obtain ⟨d1, hl, hd1len, hd1⟩ := ih d0 (ptr + 1) f hd0len (by omega) (by omega) (by omega)
    refine ⟨d1, ?_, hd1len, ?_⟩
    · rw [sync_loop, if_neg (by dsimp only; omega), hsy, Option.some_bind]
      rw [← hl]
      congr 1
    · intro j
      rw [hd1]
      simp only [hd0]
      split_ifs <;> first | rfl | omega | exact getElem?_idx_congr d (by omega)

theorem index_write_spec (N : Nat) (s : shift_array_t α) (i : Nat) (v : α) (hb : block_ok N s)
    (hc : cursor_inv N s) (hi : i < size s) :
    index_write s i v = some ⟨s._data.set (s._begin.toNat + i) v, s._begin, s._end⟩ ∧
      window (⟨s._data.set (s._begin.toNat + i) v, s._begin, s._end⟩ : shift_array_t α)
        = (window s).set i v := by
  have hwl := window_length N s hb hc
  obtain ⟨h0, h1, h2, h3⟩ := hc
  rcases s with ⟨d, b, e⟩
  simp only [block_ok, size] at *
  lift b to Nat using h0
  lift e to Nat using (by omega)
  constructor
  · unfold index_write store
    rw [if_pos (by dsimp only; omega), if_pos ⟨by dsimp only; omega, by dsimp only; omega⟩]
    simp only [Option.map_some', Int.toNat_ofNat]
    congr 3
  · apply List.ext_getElem?
    intro k
    simp only [window_getElem?, List.getElem?_set, hwl, Int.toNat_ofNat, hb]
    split_ifs <;> first | rfl | omega

theorem index_write_none (s : shift_array_t α) (i : Nat) (v : α) (hi : ¬ i < size s)
    (hc : s._begin ≤ s._end) : index_write s i v = none := by
  unfold index_write
  unfold size at hi
  rw [if_neg (by omega)]

theorem index_writes_spec (N : Nat) (ws : List (Nat × α)) :
    ∀ (s s1 : shift_array_t α), block_ok N s → cursor_inv N s → index_writes s ws = some s1 →
      s1._begin = s._begin ∧ s1._end = s._end ∧ s1._data.length = s._data.length ∧
        (∀ j : Nat, (j < s._begin.toNat ∨ s._end.toNat ≤ j) → s1._data[j]? = s._data[j]?) ∧
        window s1 = ws.foldl (fun l w => l.set w.1 w.2) (window s) := by
  induction ws with
  | nil =>
    intro s s1 _ _ h
    simp only [index_writes, Option.some.injEq] at h
    subst h
    exact ⟨rfl, rfl, rfl, fun _ _ => rfl, rfl⟩
  | cons w ws ih =>
    intro s s1 hb hc h
    simp only [index_writes] at h
    by_cases hi : w.1 < size s
    · obtain ⟨hw, hwin⟩ := index_write_spec N s w.1 w.2 hb hc hi
      rw [hw, Option.some_bind] at h
      have hb1 : block_ok N (⟨s._data.set (s._begin.toNat + w.1) w.2, s._begin, s._end⟩ :
          shift_array_t α) := by
        unfold block_ok at hb ⊢
        simpa using hb
      obtain ⟨e1, e2, e3, e4, e5⟩ := ih _ s1 hb1 hc h
      dsimp only at e1 e2 e3 e4 e5
      refine ⟨e1, e2, by rw [e3, List.length_set], ?_, ?_⟩
      · intro j hj
        rw [e4 j hj, List.getElem?_set_ne]
        obtain ⟨h0, h1, h2, h3⟩ := hc
        unfold size at hi
        omega
      · rw [e5, hwin]
        rfl
    · rw [index_write_none s w.1 w.2 hi hc.2.1] at h
      cases h

theorem write_then_sync_eq_set (N : Nat) (s : shift_array_t α) (i : Nat) (v : α) :
    (index_write s i v).bind (fun t => sync N t i) = set N s i v := by
  unfold index_write set set_unsafe
  by_cases h : s._begin + (i : Int) < s._end
  · rw [if_pos h, if_pos h]
    cases hs : store s._data (s._begin + i) v with
    | none => rfl
    | some d =>
      simp only [Option.map_some', Option.some_bind]
      unfold sync
      rw [if_pos h]
  · rw [if_neg h, if_neg h]
    rfl

theorem sync_all_spec (N : Nat) (s : shift_array_t α) (hb : block_ok N s)
    (hc : cursor_inv N s) :
    ∃ d2, sync_all N s = some ⟨d2, s._begin, s._end⟩ ∧ d2.length = 2 * N - 1 ∧
      ∀ j : Nat, d2[j]? =
        if j < 2 * N - 1 ∧ s._begin.toNat ≤ j + N ∧ j + N < s._end.toNat then s._data[j + N]?
        else if j < 2 * N - 1 ∧ s._begin.toNat + N ≤ j ∧ j < s._end.toNat + N then
          s._data[j - N]?
        else s._data[j]? := by
  obtain ⟨h0, h1, h2, h3⟩ := hc
  rcases s with ⟨d, b, e⟩
  simp only [block_ok] at *
  lift b to Nat using h0
  lift e to Nat using (by omega)
  obtain ⟨d2, hl, hlen, hd2⟩ := sync_loop_spec N (b : Int) e (by omega) (e - b) d b
    (d.length + 2) hb (by omega) (by omega) (by omega)
  exact ⟨d2, hl, hlen, by simpa using hd2⟩

theorem reachable_valid [Inhabited α] (N : Nat) (hN : 0 < N) (ops : List (Op α))
    (s : shift_array_t α) (h : run N (ctor N : shift_array_t α) ops = some s) : valid N s :=
  (run_sim N hN ops (ctor N : shift_array_t α) (ctor_valid N hN).1).2 s h

theorem index_read_eq_window (N : Nat) (s : shift_array_t α) (i : Nat) (hb : block_ok N s)
    (hc : cursor_inv N s) : index_read s i = (window s)[i]? := by
  obtain ⟨h0, h1, h2, h3⟩ := hc
  rcases s with ⟨d, b, e⟩
  simp only [block_ok] at *
  lift b to Nat using h0
  lift e to Nat using (by omega)
  rw [window_getElem?]
  unfold index_read load
  dsimp only
  by_cases h : (b : Int) + (i : Int) < (e : Int)
  · rw [if_pos h, if_pos (by omega), if_pos (by omega)]
    exact getElem?_idx_congr d (by omega)
  · rw [if_neg h, if_neg (by omega)]

theorem push_back_many_full (N : Nat) (hN : 0 < N) (vs : List α) :
    ∀ s : shift_array_t α, valid N s → size s = N →
      ∃ s2, push_back_many N s vs = some s2 ∧ valid N s2 ∧ size s2 = N ∧
        ∀ j : Nat, j + vs.length < N → (window s2)[j]? = (window s)[j + vs.length]? := by
  induction vs with
  | nil =>
    intro s h hf
    exact ⟨s, rfl, h, hf, fun j _ => rfl⟩
  | cons v vs ih =>
    intro s h hf
    obtain ⟨s1, hs, hv, hw, hsz⟩ := push_back_valid N hN s v h
    obtain ⟨s2, hs2, hv2, hsz2, hw2⟩ := ih s1 hv (by omega)
    refine ⟨s2, by simp only [push_back_many, hs, Option.some_bind, hs2], hv2, hsz2, ?_⟩
    intro j hj
    rw [List.length_cons] at hj
    rw [hw2 j (by omega), hw, List.getElem?_drop, hf,
      List.getElem?_append_left (by rw [window_length N s h.1 h.2.1]; omega)]
    exact getElem?_idx_congr _ (by rw [List.length_cons]; omega)

theorem push_front_many_full (N : Nat) (hN : 0 < N) (vs : List α) :
    ∀ s : shift_array_t α, valid N s → size s = N →
      ∃ s2, push_front_many N s vs = some s2 ∧ valid N s2 ∧ size s2 = N ∧
        ∀ j : Nat, j + vs.length < N → (window s2)[j + vs.length]? = (window s)[j]? := by
  induction vs with
  | nil =>
    intro s h hf
    exact ⟨s, rfl, h, hf, fun j _ => rfl⟩
  | cons v vs ih =>
    intro s h hf
    obtain ⟨s1, hs, hv, hw, hsz⟩ := push_front_valid N hN s v h
    obtain ⟨s2, hs2, hv2, hsz2, hw2⟩ := ih s1 hv (by omega)
    refine ⟨s2, by simp only [push_front_many, hs, Option.some_bind, hs2], hv2, hsz2, ?_⟩
    intro j hj
    rw [List.length_cons] at hj
    rw [getElem?_idx_congr (window s2) (show j + (v :: vs).length = (j + 1) + vs.length by
      rw [List.length_cons]; omega), hw2 (j + 1) (by omega), hw, List.getElem?_take,
      if_pos (by omega), List.getElem?_cons_succ]

/-- C1: for every capacity `N > 0` and every finite sequence of `push_back`, `push_front`,
`pop_front()`, `pop_back()`, `pop_front(n)`, `pop_back(n)`, `set(i, v)` and `clear()` applied
to a freshly constructed buffer, the buffer and the reference bounded deque of capacity `N`
agree.  If every pop and set meets its precondition on the reference deque (its run is
`some l`), the buffer runs to completion, the sequence read from `begin()` to `end()` is `l`
and `size()` is the length of `l`; and conversely, whenever the buffer runs to completion the
reference deque does too, with the buffer's window as its contents. -/
theorem refines_bounded_deque [Inhabited α] (N : Nat) (hN : 0 < N) (ops : List (Op α)) :
    (∀ l, ref_run N [] ops = some l →
      ∃ s, run N (ctor N : shift_array_t α) ops = some s ∧ window s = l ∧ size s = l.length) ∧
    (∀ s, run N (ctor N : shift_array_t α) ops = some s →
      ref_run N [] ops = some (window s) ∧ size s = (window s).length) := by
  have h0 : valid N (ctor N : shift_array_t α) ∧ window (ctor N : shift_array_t α) = [] :=
    ctor_valid N hN
  obtain ⟨hv0, hw0⟩ := h0
  obtain ⟨hsim, hval⟩ := run_sim N hN ops (ctor N : shift_array_t α) hv0
  rw [hw0] at hsim
  constructor
  · intro l hl
    rw [hl] at hsim
    cases hr : run N (ctor N : shift_array_t α) ops with
    | none => rw [hr] at hsim; cases hsim
    | some s =>
      rw [hr, Option.map_some', Option.some.injEq] at hsim
      have hv := hval s hr
      exact ⟨s, rfl, hsim, by rw [← hsim, window_length N s hv.1 hv.2.1]⟩
  · intro s hs
    rw [hs, Option.map_some'] at hsim
    have hv := hval s hs
    exact ⟨hsim.symm, (window_length N s hv.1 hv.2.1).symm⟩

theorem refines_bounded_deque_witness :
    0 < 4 ∧ ref_run 4 [] demo_ops = some [3] ∧
      ∃ s, run 4 (ctor 4 : shift_array_t Int) demo_ops = some s ∧ window s = [3] ∧
        size s = [3].length :=
  ⟨by decide, by decide, (refines_bounded_deque 4 (by decide) demo_ops).1 [3] (by decide)⟩

/-- C2: for every `N > 0`, every state with `0 ≤ begin ≤ end ≤ 2N - 1`, `end - begin ≤ N` and
every mirror pair equal, and every value `v`: `push_back(v)` completes and the window then
reads as the last `min(size + 1, N)` elements of the old window followed by `v`.  On a full
buffer the front element is gone, the other `N - 1` elements keep their order, `v` is last and
`size()` stays `N`; on a non-full buffer `size()` grows by one and nothing is evicted. -/
theorem push_back_window (N : Nat) (hN : 0 < N) (s : shift_array_t α) (v : α)
    (hb : block_ok N s) (hc : cursor_inv N s) (hm : mirror_inv N s) :
    ∃ s1, push_back N s v = some s1 ∧
      window s1 = (window s ++ [v]).drop ((window s ++ [v]).length - min (size s + 1) N) ∧
      size s1 = min (size s + 1) N ∧
      (size s = N → window s1 = (window s).tail ++ [v] ∧ size s1 = N) ∧
      (size s < N → window s1 = window s ++ [v] ∧ size s1 = size s + 1) := by
  obtain ⟨s1, hs, _, hw, hsz⟩ := push_back_valid N hN s v ⟨hb, hc, hm⟩
  have hwl := window_length N s hb hc
  refine ⟨s1, hs, ?_, hsz, ?_, ?_⟩
  · rw [hw, List.length_append, hwl, List.length_singleton]
    congr 1
    omega
  · intro hfull
    refine ⟨?_, by omega⟩
    rw [hw, hfull, show N + 1 - N = 1 by omega, List.drop_one,
      List.tail_append_of_ne_nil (List.ne_nil_of_length_pos (by omega))]
  · intro hlt
    refine ⟨?_, by omega⟩
    rw [hw, show size s + 1 - N = 0 by omega]
    rfl

theorem push_back_window_witness :
    (block_ok 4 full_hi ∧ cursor_inv 4 full_hi ∧ mirror_inv 4 full_hi) ∧
      ∃ s1, push_back 4 full_hi 5 = some s1 ∧
        window s1 = (window full_hi ++ [5]).drop
          ((window full_hi ++ [5]).length - min (size full_hi + 1) 4) ∧
        size s1 = min (size full_hi + 1) 4 ∧
        (size full_hi = 4 → window s1 = (window full_hi).tail ++ [5] ∧ size s1 = 4) ∧
        (size full_hi < 4 → window s1 = window full_hi ++ [5] ∧ size s1 = size full_hi + 1) :=
  ⟨⟨by decide, by decide, by decide⟩,
    push_back_window 4 (by decide) full_hi 5 (by decide) (by decide)
      (by decide)⟩

/-- C3: for every `N > 0`, every state with `0 ≤ begin ≤ end ≤ 2N - 1`, `end - begin ≤ N` and
every mirror pair equal, and every value `v`: `push_front(v)` completes and the window then
reads as the first `min(size + 1, N)` elements of `v` followed by the old window.  On a full
buffer the back element is gone, the other `N - 1` elements keep their order, `v` is first and
`size()` stays `N`.  When `begin = 0` the cursors are rebased forward by `N`: the new `begin`
is `N - 1` and the new `end` is the old `end + N`, cut back to `2N - 1` on eviction. -/
theorem push_front_window (N : Nat) (hN : 0 < N) (s : shift_array_t α) (v : α)
    (hb : block_ok N s) (hc : cursor_inv N s) (hm : mirror_inv N s) :
    ∃ s1, push_front N s v = some s1 ∧
      window s1 = (v :: window s).take (min (size s + 1) N) ∧
      size s1 = min (size s + 1) N ∧
      (size s = N → window s1 = v :: (window s).dropLast ∧ size s1 = N) ∧
      (size s < N → window s1 = v :: window s ∧ size s1 = size s + 1) ∧
      (s._begin = 0 → s1._begin = (N : Int) - 1 ∧
        s1._end = min (s._end + (N : Int)) (2 * (N : Int) - 1)) := by
  obtain ⟨s1, hs, _, hw, hsz⟩ := push_front_valid N hN s v ⟨hb, hc, hm⟩
  have hwl := window_length N s hb hc
  refine ⟨s1, hs, hw, hsz, ?_, ?_, ?_⟩
  · intro hfull
    refine ⟨?_, by omega⟩
    rw [hw, hfull, show min (N + 1) N = (N - 1) + 1 by omega, List.take_succ_cons,
      List.dropLast_eq_take, hwl, hfull]
  · intro hlt
    refine ⟨?_, by omega⟩
    rw [hw]
    apply List.take_of_length_le
    rw [List.length_cons, hwl]
    omega
  · intro hb0
    unfold push_front at hs
    dsimp only at hs
    have hcur := set_unsafe_cursors N _ s1 _ v hs
    dsimp only at hcur
    obtain ⟨h0, h1, h2, h3⟩ := hc
    rw [hb0] at hcur h3
    obtain ⟨hc1, hc2⟩ := hcur
    rw [hc1, hc2]
    constructor
    · split_ifs <;> omega
    · split_ifs <;> omega

theorem push_front_window_witness :
    (block_ok 4 full_lo ∧ cursor_inv 4 full_lo ∧ mirror_inv 4 full_lo) ∧
      ∃ s1, push_front 4 full_lo 9 = some s1 ∧
        window s1 = (9 :: window full_lo).take (min (size full_lo + 1) 4) ∧
        size s1 = min (size full_lo + 1) 4 ∧
        (size full_lo = 4 → window s1 = 9 :: (window full_lo).dropLast ∧ size s1 = 4) ∧
        (size full_lo < 4 → window s1 = 9 :: window full_lo ∧ size s1 = size full_lo + 1) ∧
        (full_lo._begin = 0 → s1._begin = ((4 : Nat) : Int) - 1 ∧
          s1._end = min (full_lo._end + ((4 : Nat) : Int)) (2 * ((4 : Nat) : Int) - 1)) :=
  ⟨⟨by decide, by decide, by decide⟩,
    push_front_window 4 (by decide) full_lo 9 (by decide) (by decide)
      (by decide)⟩

/-- C4: for every state satisfying the cursor invariants and every `n ≤ size()`:
`pop_front(n)` leaves the old window with its first `n` elements dropped, `pop_back(n)` leaves
the old window with its last `n` elements dropped, in both cases `size()` decreases by exactly
`n`, the remaining elements keep their order, and the storage block is untouched; the
single-element `pop_front()` / `pop_back()` are the bulk forms at `n = 1`. -/
theorem pop_window (N : Nat) (s : shift_array_t α) (n : Nat)
    (hb : block_ok N s) (hc : cursor_inv N s) (hn : n ≤ size s) :
    (∃ sf, pop_front_n s n = some sf ∧ window sf = (window s).drop n ∧
      size sf + n = size s ∧ sf._data = s._data) ∧
    (∃ sb, pop_back_n s n = some sb ∧ window sb = (window s).take ((window s).length - n) ∧
      size sb + n = size s ∧ sb._data = s._data) ∧
    pop_front s = pop_front_n s 1 ∧ pop_back s = pop_back_n s 1 := by
  obtain ⟨hf, _, hfw, hfs⟩ := pop_front_n_spec N s n hb hc hn
  obtain ⟨hk, _, hkw, hks⟩ := pop_back_n_spec N s n hb hc hn
  have hwl := window_length N s hb hc
  refine ⟨⟨_, hf, hfw, by omega, rfl⟩, ⟨_, hk, ?_, by omega, rfl⟩,
    pop_front_eq_n s, pop_back_eq_n s⟩
  rw [hkw, hwl]

theorem pop_window_witness :
    (block_ok 4 full_hi ∧ cursor_inv 4 full_hi ∧ 2 ≤ size full_hi) ∧
    ((∃ sf, pop_front_n full_hi 2 = some sf ∧ window sf = (window full_hi).drop 2 ∧
      size sf + 2 = size full_hi ∧ sf._data = full_hi._data) ∧
    (∃ sb, pop_back_n full_hi 2 = some sb ∧
      window sb = (window full_hi).take ((window full_hi).length - 2) ∧
      size sb + 2 = size full_hi ∧ sb._data = full_hi._data) ∧
    pop_front full_hi = pop_front_n full_hi 1 ∧ pop_back full_hi = pop_back_n full_hi 1) :=
  ⟨⟨by decide, by decide, by decide⟩,
    pop_window 4 full_hi 2 (by decide) (by decide) (by decide)⟩

/-- C5: for every state satisfying the cursor invariants, every index `i < size()` and every
value `v`: `set(i, v)` completes, leaves `begin` and `end` unchanged, makes the window equal to
the old window with position `i` replaced by `v`, writes `v` into storage slot `begin + i` and
into that slot's mirror partner (offset `- N` or `+ N`) when one exists inside the block, and
changes no other storage slot. -/
theorem set_frame (N : Nat) (s : shift_array_t α) (i : Nat) (v : α)
    (hb : block_ok N s) (hc : cursor_inv N s) (hi : i < size s) :
    ∃ s1, set N s i v = some s1 ∧ s1._begin = s._begin ∧ s1._end = s._end ∧
      window s1 = (window s).set i v ∧
      s1._data.length = s._data.length ∧
      s1._data[s._begin.toNat + i]? = some v ∧
      (N ≤ s._begin.toNat + i → s1._data[s._begin.toNat + i - N]? = some v) ∧
      (s._begin.toNat + i + N < 2 * N - 1 → s1._data[s._begin.toNat + i + N]? = some v) ∧
      (∀ j : Nat, j ≠ s._begin.toNat + i → j ≠ s._begin.toNat + i + N →
        j + N ≠ s._begin.toNat + i → s1._data[j]? = s._data[j]?) := by
  obtain ⟨d1, hset, hlen, hd1, hw⟩ := set_spec N s i v hb hc hi
  obtain ⟨h0, h1, h2, h3⟩ := hc
  unfold size at hi
  unfold block_ok at hb
  refine ⟨_, hset, rfl, rfl, hw, by rw [hlen, hb], ?_, ?_, ?_, ?_⟩
  · dsimp only
    rw [hd1, if_pos ⟨by omega, Or.inl rfl⟩]
  · intro hp
    dsimp only
    rw [hd1, if_pos ⟨by omega, Or.inr (Or.inr (by omega))⟩]
  · intro hp
    dsimp only
    rw [hd1, if_pos ⟨by omega, Or.inr (Or.inl rfl)⟩]
  · intro j hj1 hj2 hj3
    dsimp only
    rw [hd1, if_neg (by omega)]

theorem set_frame_witness :
    (block_ok 4 full_hi ∧ cursor_inv 4 full_hi ∧ 1 < size full_hi) ∧
    ∃ s1, set 4 full_hi 1 99 = some s1 ∧ s1._begin = full_hi._begin ∧
      s1._end = full_hi._end ∧
      window s1 = (window full_hi).set 1 99 ∧
      s1._data.length = full_hi._data.length ∧
      s1._data[full_hi._begin.toNat + 1]? = some 99 ∧
      (4 ≤ full_hi._begin.toNat + 1 → s1._data[full_hi._begin.toNat + 1 - 4]? = some 99) ∧
      (full_hi._begin.toNat + 1 + 4 < 2 * 4 - 1 →
        s1._data[full_hi._begin.toNat + 1 + 4]? = some 99) ∧
      (∀ j : Nat, j ≠ full_hi._begin.toNat + 1 → j ≠ full_hi._begin.toNat + 1 + 4 →
        j + 4 ≠ full_hi._begin.toNat + 1 → s1._data[j]? = full_hi._data[j]?) :=
  ⟨⟨by decide, by decide, by decide⟩,
    set_frame 4 full_hi 1 99 (by decide) (by decide) (by decide)⟩

/-- C7: an in-place write that is not followed by `sync` is lost by a later push.  With
`N = 4`: after `push_back` of 1, 2, 3, 4 the window is `[1, 2, 3, 4]`; writing 99 at index 1
through the mutable `operator[]` and then `push_back(5)` gives the window `[2, 3, 4, 5]`, whose
position 0 (where the written element now sits) holds the stale 2, and not `[99, 3, 4, 5]`;
with `sync(1)` inserted after the write the same run gives `[99, 3, 4, 5]`. -/
theorem stale_read_without_sync :
    ∃ s0 s1 s2 s3 s4 : shift_array_t Int,
      run 4 (ctor 4) [Op.push_back 1, Op.push_back 2, Op.push_back 3, Op.push_back 4] = some s0 ∧
      window s0 = [1, 2, 3, 4] ∧
      index_write s0 1 99 = some s1 ∧ index_read s1 1 = some 99 ∧
      push_back 4 s1 5 = some s2 ∧ window s2 = [2, 3, 4, 5] ∧ window s2 ≠ [99, 3, 4, 5] ∧
      index_read s2 0 = some 2 ∧
      sync 4 s1 1 = some s3 ∧ push_back 4 s3 5 = some s4 ∧ window s4 = [99, 3, 4, 5] :=
  ⟨⟨[2, 3, 4, 1, 2, 3, 4], 3, 7⟩, ⟨[2, 3, 4, 1, 99, 3, 4], 3, 7⟩, ⟨[2, 3, 4, 5, 99, 3, 4], 0, 4⟩,
    ⟨[99, 3, 4, 1, 99, 3, 4], 3, 7⟩, ⟨[99, 3, 4, 5, 99, 3, 4], 0, 4⟩,
    by decide, by decide, by decide, by decide, by decide, by decide, by decide, by decide,
    by decide, by decide, by decide⟩

/-- C9: the scenario with `N = 4` on integers, from a fresh buffer: after `push_back` of
1, 2, 3, 4 the window is `[1, 2, 3, 4]`; after `push_back(5)` it is `[2, 3, 4, 5]`; after
`push_front(9)` it is `[9, 2, 3, 4]`; after `pop_front()` it is `[2, 3, 4]`; after
`pop_back(2)` it is `[2]`; after `clear()` it is `[]` with `size() == 0`. -/
theorem concrete_scenario :
    ∃ s1 s2 s3 s4 s5 : shift_array_t Int,
      run 4 (ctor 4) [Op.push_back 1, Op.push_back 2, Op.push_back 3, Op.push_back 4] = some s1 ∧
      window s1 = [1, 2, 3, 4] ∧
      push_back 4 s1 5 = some s2 ∧ window s2 = [2, 3, 4, 5] ∧
      push_front 4 s2 9 = some s3 ∧ window s3 = [9, 2, 3, 4] ∧
      pop_front s3 = some s4 ∧ window s4 = [2, 3, 4] ∧
      pop_back_n s4 2 = some s5 ∧ window s5 = [2] ∧
      window (clear 4 s5) = [] ∧ size (clear 4 s5) = 0 :=
  ⟨⟨[2, 3, 4, 1, 2, 3, 4], 3, 7⟩, ⟨[2, 3, 4, 5, 2, 3, 4], 0, 4⟩, ⟨[2, 3, 4, 9, 2, 3, 4], 3, 7⟩,
    ⟨[2, 3, 4, 9, 2, 3, 4], 4, 7⟩, ⟨[2, 3, 4, 9, 2, 3, 4], 4, 5⟩,
    by decide, by decide, by decide, by decide, by decide, by decide, by decide, by decide,
    by decide, by decide, by decide, by decide⟩

/-- C10: for every state, whatever its cursors and contents, `clear()` yields `size() == 0` and
`empty() == true` with `begin = end = N - 1`, the cursor position of a fresh buffer, and
leaves the storage block unchanged. -/
theorem clear_frame [Inhabited α] (N : Nat) (s : shift_array_t α) :
    size (clear N s) = 0 ∧ empty (clear N s) = true ∧
      (clear N s)._begin = (N : Int) - 1 ∧ (clear N s)._end = (N : Int) - 1 ∧
      (clear N s)._begin = (ctor N : shift_array_t α)._begin ∧
      (clear N s)._end = (ctor N : shift_array_t α)._end ∧
      (clear N s)._data = s._data := by
  refine ⟨?_, ?_, rfl, rfl, rfl, rfl, rfl⟩
  · unfold size clear
    simp
  · unfold empty clear
    simp

/-- C6: for every state satisfying the cursor invariants in which every mirror pair is equal:
after overwriting any window positions in place through the mutable `operator[]` (no sync)
and then calling the whole-window `sync()`, the call completes, every mirror pair of the block
is equal again, and the window reads exactly the values as written in place (`sync()` changes
no window element and no cursor).  Likewise an in-place write at index `i` followed by
`sync(i)` yields the same result as `set(i, v)`. -/
theorem sync_after_writes (N : Nat) (s s1 : shift_array_t α) (ws : List (Nat × α))
    (hb : block_ok N s) (hc : cursor_inv N s) (hm : mirror_inv N s)
    (hw : index_writes s ws = some s1) :
    (∃ s2, sync_all N s1 = some s2 ∧ mirror_inv N s2 ∧ window s2 = window s1 ∧
      window s2 = ws.foldl (fun l w => l.set w.1 w.2) (window s) ∧
      s2._begin = s1._begin ∧ s2._end = s1._end) ∧
    ∀ (i : Nat) (v : α), (index_write s i v).bind (fun t => sync N t i) = set N s i v := by
  refine ⟨?_, fun i v => write_then_sync_eq_set N s i v⟩
  obtain ⟨e1, e2, e3, e4, e5⟩ := index_writes_spec N ws s s1 hb hc hw
  have hb1 : block_ok N s1 := by
    unfold block_ok at hb ⊢
    rw [e3, hb]
  have hc1 : cursor_inv N s1 := by
    unfold cursor_inv at hc ⊢
    rw [e1, e2]
    exact hc
  obtain ⟨d2, hsy, hlen, hd2⟩ := sync_all_spec N s1 hb1 hc1
  rw [e1, e2] at hd2
  obtain ⟨h0, h1, h2, h3⟩ := hc
  have hwin : window (⟨d2, s1._begin, s1._end⟩ : shift_array_t α) = window s1 := by
    apply List.ext_getElem?
    intro k
    rw [window_getElem?, window_getElem?]
    dsimp only
    rw [hd2, e1, e2]
    split_ifs <;> first | rfl | omega
  refine ⟨_, hsy, ?_, hwin, by rw [hwin, e5], rfl, rfl⟩
  intro i hi
  dsimp only
  rw [hd2, hd2]
  split_ifs <;> first
    | rfl
    | omega
    | exact getElem?_idx_congr s1._data (by omega)
    | (rw [e4 i (by omega), e4 (i + N) (by omega)]; exact hm i hi)

theorem sync_after_writes_witness :
    (block_ok 4 full_hi ∧ cursor_inv 4 full_hi ∧ mirror_inv 4 full_hi ∧
      index_writes full_hi [(1, 99), (3, 77)] = some ⟨[2, 3, 4, 1, 99, 3, 77], 3, 7⟩) ∧
    ((∃ s2, sync_all 4 (⟨[2, 3, 4, 1, 99, 3, 77], 3, 7⟩ : shift_array_t Int) = some s2 ∧
      mirror_inv 4 s2 ∧
      window s2 = window (⟨[2, 3, 4, 1, 99, 3, 77], 3, 7⟩ : shift_array_t Int) ∧
      window s2 = [(1, 99), (3, 77)].foldl (fun l w => l.set w.1 w.2) (window full_hi) ∧
      s2._begin = 3 ∧ s2._end = 7) ∧
    ∀ (i : Nat) (v : Int),
      (index_write full_hi i v).bind (fun t => sync 4 t i) = set 4 full_hi i v) :=
  ⟨⟨by decide, by decide, by decide, by decide⟩,
    sync_after_writes 4 full_hi ⟨[2, 3, 4, 1, 99, 3, 77], 3, 7⟩ [(1, 99), (3, 77)]
      (by decide) (by decide) (by decide) (by decide)⟩

/-- C8: no stale reads across a full cycle of shifts.  For every `N > 0`, every full buffer
(size `N`) reachable from a fresh buffer by push / pop / set / clear, every index `i < N` and
value `v`: `set(i, v)` completes; after `k ≤ i` further `push_back` calls (of any values) the
element at index `i - k` equals `v`; and after `k ≤ N - 1 - i` further `push_front` calls the
element at index `i + k` equals `v`, whatever cursor rebases happen in between. -/
theorem no_stale_reads [Inhabited α] (N : Nat) (hN : 0 < N) (ops : List (Op α))
    (s : shift_array_t α) (hreach : run N (ctor N : shift_array_t α) ops = some s)
    (hfull : size s = N) (i : Nat) (hi : i < N) (v : α) :
    ∃ s1, set N s i v = some s1 ∧
      (∀ vs : List α, vs.length ≤ i →
        ∃ s2, push_back_many N s1 vs = some s2 ∧ index_read s2 (i - vs.length) = some v) ∧
      (∀ vs : List α, vs.length ≤ N - 1 - i →
        ∃ s2, push_front_many N s1 vs = some s2 ∧ index_read s2 (i + vs.length) = some v) := by
  have hv := reachable_valid N hN ops s hreach
  obtain ⟨s1, hs1, hv1, hw1⟩ := set_valid N s i v hv (by omega)
  have hwl := window_length N s hv.1 hv.2.1
  have hwl1 := window_length N s1 hv1.1 hv1.2.1
  have hsz1 : size s1 = N := by
    rw [← hwl1, hw1, List.length_set, hwl, hfull]
  have hget : (window s1)[i]? = some v := by
    rw [hw1, List.getElem?_set, if_pos rfl, if_pos (by omega)]
  refine ⟨s1, hs1, ?_, ?_⟩
  · intro vs hk
    obtain ⟨s2, hs2, hv2, _, hw2⟩ := push_back_many_full N hN vs s1 hv1 hsz1
    refine ⟨s2, hs2, ?_⟩
    rw [index_read_eq_window N s2 _ hv2.1 hv2.2.1, hw2 (i - vs.length) (by omega),
      getElem?_idx_congr (window s1) (show i - vs.length + vs.length = i by omega), hget]
  · intro vs hk
    obtain ⟨s2, hs2, hv2, _, hw2⟩ := push_front_many_full N hN vs s1 hv1 hsz1
    refine ⟨s2, hs2, ?_⟩
    rw [index_read_eq_window N s2 _ hv2.1 hv2.2.1, hw2 i (by omega), hget]

theorem no_stale_reads_witness :
    (0 < 4 ∧ run 4 (ctor 4 : shift_array_t Int)
        [Op.push_back 1, Op.push_back 2, Op.push_back 3, Op.push_back 4, Op.push_back 5]
        = some full_lo ∧ size full_lo = 4 ∧ 2 < 4) ∧
    ∃ s1, set 4 full_lo 2 99 = some s1 ∧
      (∀ vs : List Int, vs.length ≤ 2 →
        ∃ s2, push_back_many 4 s1 vs = some s2 ∧ index_read s2 (2 - vs.length) = some 99) ∧
      (∀ vs : List Int, vs.length ≤ 4 - 1 - 2 →
        ∃ s2, push_front_many 4 s1 vs = some s2 ∧ index_read s2 (2 + vs.length) = some 99) :=
  ⟨⟨by decide, by decide, by decide, by decide⟩,
    no_stale_reads 4 (by decide)
      [Op.push_back 1, Op.push_back 2, Op.push_back 3, Op.push_back 4, Op.push_back 5]
      full_lo (by decide) (by decide) 2 (by decide) 99⟩

/-- C11: a freshly constructed buffer has `size() == 0`, `empty() == true`,
`capacity() == N`, `begin = end = N - 1`, and a block of `2N - 1` slots that all hold the
value-initialised (zero / default) element. -/
theorem ctor_fresh [Inhabited α] (N : Nat) :
    size (ctor N : shift_array_t α) = 0 ∧ empty (ctor N : shift_array_t α) = true ∧
      capacity N = N ∧
      (ctor N : shift_array_t α)._begin = (N : Int) - 1 ∧
      (ctor N : shift_array_t α)._end = (N : Int) - 1 ∧
      (ctor N : shift_array_t α)._data.length = 2 * N - 1 ∧
      ∀ j : Nat, j < 2 * N - 1 → (ctor N : shift_array_t α)._data[j]? = some default := by
  refine ⟨?_, ?_, rfl, rfl, rfl, ?_, ?_⟩
  · unfold size ctor
    simp
  · unfold empty ctor
    simp
  · unfold ctor
    simp
  · intro j hj
    unfold ctor
    dsimp only
    rw [List.getElem?_replicate, if_pos hj]

theorem sync_unsafe_mirror_slot (N : Nat) (s : shift_array_t α) (p : Int) :
    sync_unsafe N s p =
      match mirror_slot N p with
      | none => some s
      | some m => (load s._data p).bind fun x =>
          (store s._data m x).map fun d => ⟨d, s._begin, s._end⟩ := by
  unfold sync_unsafe mirror_slot
  split_ifs <;> rfl

theorem mirror_slot_bounds (N : Nat) (p m : Int) (h0 : 0 ≤ p) (h1 : p ≤ 2 * (N : Int) - 2)
    (hm : mirror_slot N p = some m) : 0 ≤ m ∧ m ≤ 2 * (N : Int) - 2 := by
  unfold mirror_slot at hm
  split_ifs at hm <;> simp only [Option.some.injEq] at hm <;> omega

theorem push_back_cursor_bounds (N : Nat) (s : shift_array_t α) (hc : cursor_inv N s) :
    0 ≤ (push_back_evict N (push_back_rebase N s)).1 ∧
      (push_back_evict N (push_back_rebase N s)).1 + 1
        ≤ (push_back_evict N (push_back_rebase N s)).2 ∧
      (push_back_evict N (push_back_rebase N s)).2 ≤ 2 * (N : Int) - 1 ∧
      (push_back_evict N (push_back_rebase N s)).2
        - (push_back_evict N (push_back_rebase N s)).1 ≤ (N : Int) := by
  obtain ⟨h0, h1, h2, h3⟩ := hc
  unfold push_back_evict push_back_rebase
  split_ifs <;> dsimp only at * <;> omega

theorem push_front_cursor_bounds (N : Nat) (s : shift_array_t α) (hc : cursor_inv N s) :
    0 ≤ (push_front_evict N (push_front_rebase N s)).1 ∧
      (push_front_evict N (push_front_rebase N s)).1 + 1
        ≤ (push_front_evict N (push_front_rebase N s)).2 ∧
      (push_front_evict N (push_front_rebase N s)).2 ≤ 2 * (N : Int) - 1 ∧
      (push_front_evict N (push_front_rebase N s)).2
        - (push_front_evict N (push_front_rebase N s)).1 ≤ (N : Int) := by
  obtain ⟨h0, h1, h2, h3⟩ := hc
  unfold push_front_evict push_front_rebase
  split_ifs <;> dsimp only at * <;> omega

theorem set_unsafe_runs (N : Nat) (s : shift_array_t α) (p : Int) (v : α)
    (hb : block_ok N s) (h0 : 0 ≤ p) (h1 : p ≤ 2 * (N : Int) - 2) :
    ∃ d, set_unsafe N s p v = some ⟨d, s._begin, s._end⟩ ∧ d.length = 2 * N - 1 := by
  lift p to Nat using h0
  obtain ⟨d, hs, hl, _⟩ := set_unsafe_spec N s p v hb (by omega)
  exact ⟨d, hs, hl⟩

theorem push_back_runs (N : Nat) (s : shift_array_t α) (v : α) (hb : block_ok N s)
    (hc : cursor_inv N s) :
    ∃ d, push_back N s v = some ⟨d, (push_back_evict N (push_back_rebase N s)).1,
        (push_back_evict N (push_back_rebase N s)).2⟩ ∧ d.length = 2 * N - 1 := by
  obtain ⟨c0, c1, c2, c3⟩ := push_back_cursor_bounds N s hc
  rw [push_back_stages]
  exact set_unsafe_runs N ⟨s._data, _, _⟩ _ v hb (by omega) (by omega)

theorem push_front_runs (N : Nat) (s : shift_array_t α) (v : α) (hb : block_ok N s)
    (hc : cursor_inv N s) :
    ∃ d, push_front N s v = some ⟨d, (push_front_evict N (push_front_rebase N s)).1,
        (push_front_evict N (push_front_rebase N s)).2⟩ ∧ d.length = 2 * N - 1 := by
  obtain ⟨c0, c1, c2, c3⟩ := push_front_cursor_bounds N s hc
  rw [push_front_stages]
  exact set_unsafe_runs N ⟨s._data, _, _⟩ _ v hb (by omega) (by omega)

/-- C15: cursor invariant.  The fresh buffer satisfies `0 ≤ begin ≤ end ≤ 2N - 1` and
`end - begin ≤ N`, and every operation (`push_front`, `push_back` for any value; `pop_front`,
`pop_back` single and bulk under their preconditions; `set`, `sync(i)`, `sync()`, `clear`)
completes on a state satisfying the predicate and yields a state satisfying it (with the block
still of `2N - 1` slots), for every `N > 0`, `N = 1` included. -/
theorem cursor_inv_preserved [Inhabited α] (N : Nat) (hN : 0 < N) (s : shift_array_t α)
    (hb : block_ok N s) (hc : cursor_inv N s) :
    (block_ok N (ctor N : shift_array_t α) ∧ cursor_inv N (ctor N : shift_array_t α)) ∧
    (∀ v, ∃ s1, push_front N s v = some s1 ∧ block_ok N s1 ∧ cursor_inv N s1) ∧
    (∀ v, ∃ s1, push_back N s v = some s1 ∧ block_ok N s1 ∧ cursor_inv N s1) ∧
    (0 < size s → ∃ s1, pop_front s = some s1 ∧ block_ok N s1 ∧ cursor_inv N s1) ∧
    (0 < size s → ∃ s1, pop_back s = some s1 ∧ block_ok N s1 ∧ cursor_inv N s1) ∧
    (∀ n, n ≤ size s → ∃ s1, pop_front_n s n = some s1 ∧ block_ok N s1 ∧ cursor_inv N s1) ∧
    (∀ n, n ≤ size s → ∃ s1, pop_back_n s n = some s1 ∧ block_ok N s1 ∧ cursor_inv N s1) ∧
    (∀ i v, i < size s → ∃ s1, set N s i v = some s1 ∧ block_ok N s1 ∧ cursor_inv N s1) ∧
    (∀ i, i < size s → ∃ s1, sync N s i = some s1 ∧ block_ok N s1 ∧ cursor_inv N s1) ∧
    (∃ s1, sync_all N s = some s1 ∧ block_ok N s1 ∧ cursor_inv N s1) ∧
    (block_ok N (clear N s) ∧ cursor_inv N (clear N s)) := by
  have hctor : valid N (ctor N : shift_array_t α) := (ctor_valid N hN).1
  refine ⟨⟨hctor.1, hctor.2.1⟩, ?_, ?_, ?_, ?_, ?_, ?_, ?_, ?_, ?_, ?_⟩
  · intro v
    obtain ⟨d, hs, hl⟩ := push_front_runs N s v hb hc
    obtain ⟨c0, c1, c2, c3⟩ := push_front_cursor_bounds N s hc
    exact ⟨_, hs, hl, ⟨c0, by dsimp only; omega, c2, c3⟩⟩
  · intro v
    obtain ⟨d, hs, hl⟩ := push_back_runs N s v hb hc
    obtain ⟨c0, c1, c2, c3⟩ := push_back_cursor_bounds N s hc
    exact ⟨_, hs, hl, ⟨c0, by dsimp only; omega, c2, c3⟩⟩
  · intro hpos
    obtain ⟨hs, hci, _⟩ := pop_front_n_spec N s 1 hb hc hpos
    exact ⟨⟨s._data, s._begin + ((1 : Nat) : Int), s._end⟩, by rw [pop_front_eq_n, hs], hb, hci⟩
  · intro hpos
    obtain ⟨hs, hci, _⟩ := pop_back_n_spec N s 1 hb hc hpos
    exact ⟨⟨s._data, s._begin, s._end - ((1 : Nat) : Int)⟩, by rw [pop_back_eq_n, hs], hb, hci⟩
  · intro n hn
    obtain ⟨hs, hci, _⟩ := pop_front_n_spec N s n hb hc hn
    exact ⟨_, hs, hb, hci⟩
  · intro n hn
    obtain ⟨hs, hci, _⟩ := pop_back_n_spec N s n hb hc hn
    exact ⟨_, hs, hb, hci⟩
  · intro i v hi
    obtain ⟨d1, hs, hl, _⟩ := set_spec N s i v hb hc hi
    exact ⟨_, hs, hl, hc⟩
  · intro i hi
    obtain ⟨h0, h1, h2, h3⟩ := hc
    unfold size at hi
    obtain ⟨d1, hs, hl, _⟩ := sync_unsafe_spec N s (s._begin.toNat + i) hb (by omega)
    refine ⟨⟨d1, s._begin, s._end⟩, ?_, hl, ⟨h0, h1, h2, h3⟩⟩
    unfold sync
    rw [if_pos (by omega), show s._begin + (i : Int) = ((s._begin.toNat + i : Nat) : Int) by omega,
      hs]
  · obtain ⟨d2, hs, hl, _⟩ := sync_all_spec N s hb hc
    exact ⟨_, hs, hl, hc⟩
  · refine ⟨hb, ?_, ?_, ?_, ?_⟩ <;> (unfold clear; dsimp only; omega)

theorem cursor_inv_preserved_witness :
    (0 < 1 ∧ block_ok 1 full_one ∧ cursor_inv 1 full_one) ∧
    ((block_ok 1 (ctor 1 : shift_array_t Int) ∧ cursor_inv 1 (ctor 1 : shift_array_t Int)) ∧
    (∀ v, ∃ s1, push_front 1 full_one v = some s1 ∧ block_ok 1 s1 ∧ cursor_inv 1 s1) ∧
    (∀ v, ∃ s1, push_back 1 full_one v = some s1 ∧ block_ok 1 s1 ∧ cursor_inv 1 s1) ∧
    (0 < size full_one → ∃ s1, pop_front full_one = some s1 ∧ block_ok 1 s1 ∧ cursor_inv 1 s1) ∧
    (0 < size full_one → ∃ s1, pop_back full_one = some s1 ∧ block_ok 1 s1 ∧ cursor_inv 1 s1) ∧
    (∀ n, n ≤ size full_one →
      ∃ s1, pop_front_n full_one n = some s1 ∧ block_ok 1 s1 ∧ cursor_inv 1 s1) ∧
    (∀ n, n ≤ size full_one →
      ∃ s1, pop_back_n full_one n = some s1 ∧ block_ok 1 s1 ∧ cursor_inv 1 s1) ∧
    (∀ i v, i < size full_one →
      ∃ s1, set 1 full_one i v = some s1 ∧ block_ok 1 s1 ∧ cursor_inv 1 s1) ∧
    (∀ i, i < size full_one →
      ∃ s1, sync 1 full_one i = some s1 ∧ block_ok 1 s1 ∧ cursor_inv 1 s1) ∧
    (∃ s1, sync_all 1 full_one = some s1 ∧ block_ok 1 s1 ∧ cursor_inv 1 s1) ∧
    (block_ok 1 (clear 1 full_one) ∧ cursor_inv 1 (clear 1 full_one))) :=
  ⟨⟨by decide, by decide, by decide⟩,
    cursor_inv_preserved 1 (by decide) full_one (by decide) (by decide)⟩

theorem load_some_bounds (d : List α) (p : Int) (x : α) (h : load d p = some x) :
    0 ≤ p ∧ p < (d.length : Int) := by
  unfold load at h
  split_ifs at h with h0
  have := (List.getElem?_eq_some_iff.mp h).1
  omega

theorem store_some_bounds (d d1 : List α) (p : Int) (x : α) (h : store d p x = some d1) :
    0 ≤ p ∧ p < (d.length : Int) := by
  unfold store at h
  split_ifs at h with h0
  exact h0

/-- C18 as stated fails: with `N = 4`, `begin = 3`, `end = 6`, advancing `end` gives 7, which
exceeds the last valid slot offset `2N - 2 = 6`, yet `push_back` does not rebase: the cursors
after its first statement are `(3, 7)`, not `(3 - 4, 7 - 4)`, and the call ends with
`begin = 3`, `end = 7`. -/
theorem push_back_no_rebase_at_block_end :
    block_ok 4 three_hi ∧ cursor_inv 4 three_hi ∧
      three_hi._end + 1 > 2 * ((4 : Nat) : Int) - 2 ∧
      push_back_rebase 4 three_hi = (3, 7) ∧
      push_back_rebase 4 three_hi ≠ (three_hi._begin - 4, three_hi._end + 1 - 4) ∧
      push_back 4 three_hi 4 = some ⟨[2, 3, 4, 1, 2, 3, 4], 3, 7⟩ :=
  ⟨by decide, by decide, by decide, by decide, by decide, by decide⟩

/-- C18, amended: in `push_back`, for every state satisfying the cursor invariants, after `end`
is advanced by one slot the window is rebased backward by `N` (both cursors) exactly when
`end` now exceeds `2N - 1`, one past the last valid slot offset; otherwise the cursors are the
old `begin` and the advanced `end`.  The eviction step and the write then act on these
cursors: the call completes with `end` as left by the rebase step, `begin` the larger of the
rebased `begin` and `end - N`, and the written slot `end - 1`. -/
theorem push_back_rebase_rule (N : Nat) (s : shift_array_t α) (v : α)
    (hb : block_ok N s) (hc : cursor_inv N s) :
    (s._end + 1 > 2 * (N : Int) - 1 →
      push_back_rebase N s = (s._begin - N, s._end + 1 - N)) ∧
    (¬ s._end + 1 > 2 * (N : Int) - 1 → push_back_rebase N s = (s._begin, s._end + 1)) ∧
    push_back N s v =
      set_unsafe N ⟨s._data, (push_back_evict N (push_back_rebase N s)).1,
        (push_back_evict N (push_back_rebase N s)).2⟩
        ((push_back_evict N (push_back_rebase N s)).2 - 1) v ∧
    ∃ s1, push_back N s v = some s1 ∧ s1._end = (push_back_rebase N s).2 ∧
      s1._begin = max (push_back_rebase N s).1 ((push_back_rebase N s).2 - N) := by
  refine ⟨?_, ?_, push_back_stages N s v, ?_⟩
  · intro h
    unfold push_back_rebase
    rw [if_pos h]
  · intro h
    unfold push_back_rebase
    rw [if_neg h]
  · obtain ⟨d, hs, _⟩ := push_back_runs N s v hb hc
    refine ⟨_, hs, ?_, ?_⟩
    · unfold push_back_evict
      split_ifs <;> rfl
    · unfold push_back_evict
      split_ifs <;> dsimp only <;> omega

theorem push_back_rebase_rule_witness :
    (block_ok 4 full_hi ∧ cursor_inv 4 full_hi) ∧
    ((full_hi._end + 1 > 2 * ((4 : Nat) : Int) - 1 →
      push_back_rebase 4 full_hi = (full_hi._begin - (4 : Nat), full_hi._end + 1 - (4 : Nat))) ∧
    (¬ full_hi._end + 1 > 2 * ((4 : Nat) : Int) - 1 →
      push_back_rebase 4 full_hi = (full_hi._begin, full_hi._end + 1)) ∧
    push_back 4 full_hi 5 =
      set_unsafe 4 ⟨full_hi._data, (push_back_evict 4 (push_back_rebase 4 full_hi)).1,
        (push_back_evict 4 (push_back_rebase 4 full_hi)).2⟩
        ((push_back_evict 4 (push_back_rebase 4 full_hi)).2 - 1) 5 ∧
    ∃ s1, push_back 4 full_hi 5 = some s1 ∧ s1._end = (push_back_rebase 4 full_hi).2 ∧
      s1._begin = max (push_back_rebase 4 full_hi).1
        ((push_back_rebase 4 full_hi).2 - (4 : Nat))) :=
  ⟨⟨by decide, by decide⟩, push_back_rebase_rule 4 full_hi 5 (by decide) (by decide)⟩

/-- C19: in-bounds access.  For every state satisfying the cursor invariants: `push_back`
completes and writes slot `end - 1` (after adjustment), `push_front` completes and writes slot
`begin` (after adjustment), `set(i, v)` with `i < size()` completes and writes slot
`begin + i`, `sync(i)` and `sync()` complete and touch only window slots; all these slots, and
the mirror slot `sync_unsafe` writes for any of them, are offsets in `[0, 2N - 2]`.  A call
that completes made every load and store inside the block.  This holds although inside a push
a cursor leaves `[0, 2N - 1]` for a moment (`begin = -1`, `end = 2N`). -/
theorem in_bounds_access (N : Nat) (s : shift_array_t α) (v : α) (i : Nat)
    (hb : block_ok N s) (hc : cursor_inv N s) :
    (∃ s1, push_back N s v = some s1 ∧ 0 ≤ s1._end - 1 ∧ s1._end - 1 ≤ 2 * (N : Int) - 2) ∧
    (∃ s1, push_front N s v = some s1 ∧ 0 ≤ s1._begin ∧ s1._begin ≤ 2 * (N : Int) - 2) ∧
    (i < size s → 0 ≤ s._begin + (i : Int) ∧ s._begin + (i : Int) ≤ 2 * (N : Int) - 2 ∧
      (∃ s1, set N s i v = some s1) ∧ ∃ s1, sync N s i = some s1) ∧
    (∃ s1, sync_all N s = some s1) ∧
    (∀ p : Int, s._begin ≤ p → p < s._end → 0 ≤ p ∧ p ≤ 2 * (N : Int) - 2) ∧
    (∀ p m : Int, 0 ≤ p → p ≤ 2 * (N : Int) - 2 → mirror_slot N p = some m →
      0 ≤ m ∧ m ≤ 2 * (N : Int) - 2) ∧
    (∀ (p : Int) (x : α), load s._data p = some x → 0 ≤ p ∧ p ≤ 2 * (N : Int) - 2) ∧
    (∀ (p : Int) (x : α) (d : List α), store s._data p x = some d →
      0 ≤ p ∧ p ≤ 2 * (N : Int) - 2) ∧
    (s._begin = 0 → s._begin - 1 = -1 ∧ (s._end = (N : Int) →
      push_front_rebase N s = ((N : Int) - 1, 2 * (N : Int)))) ∧
    (s._end = 2 * (N : Int) - 1 → s._end + 1 = 2 * (N : Int) ∧ (s._begin = (N : Int) - 1 →
      push_back_rebase N s = (-1, (N : Int)))) := by
  have hc0 := hc
  obtain ⟨h0, h1, h2, h3⟩ := hc
  have hlen : ((s._data.length : Nat) : Int) = 2 * (N : Int) - 1 := by
    unfold block_ok at hb
    omega
  refine ⟨?_, ?_, ?_, ?_, ?_, ?_, ?_, ?_, ?_, ?_⟩
  · obtain ⟨d, hs, _⟩ := push_back_runs N s v hb hc0
    obtain ⟨c0, c1, c2, c3⟩ := push_back_cursor_bounds N s hc0
    exact ⟨_, hs, by dsimp only; omega, by dsimp only; omega⟩
  · obtain ⟨d, hs, _⟩ := push_front_runs N s v hb hc0
    obtain ⟨c0, c1, c2, c3⟩ := push_front_cursor_bounds N s hc0
    exact ⟨_, hs, by dsimp only; omega, by dsimp only; omega⟩
  · intro hi
    obtain ⟨d1, hs, _⟩ := set_spec N s i v hb hc0 hi
    unfold size at hi
    obtain ⟨d2, hs2, _⟩ := sync_unsafe_spec N s (s._begin.toNat + i) hb (by omega)
    refine ⟨by omega, by omega, ⟨_, hs⟩, ⟨⟨d2, s._begin, s._end⟩, ?_⟩⟩
    unfold sync
    rw [if_pos (by omega), show s._begin + (i : Int) = ((s._begin.toNat + i : Nat) : Int) by omega,
      hs2]
  · obtain ⟨d2, hs, _⟩ := sync_all_spec N s hb hc0
    exact ⟨_, hs⟩
  · intro p hp1 hp2
    omega
  · intro p m hp0 hp1 hm
    exact mirror_slot_bounds N p m hp0 hp1 hm
  · intro p x hl
    have := load_some_bounds _ _ _ hl
    omega
  · intro p x d hst
    have := store_some_bounds _ _ _ _ hst
    omega
  · intro hb0
    refine ⟨by omega, fun he => ?_⟩
    unfold push_front_rebase
    rw [if_pos (by omega), hb0, he]
    congr 1
    omega
  · intro he
    refine ⟨by omega, fun hb1 => ?_⟩
    unfold push_back_rebase
    rw [if_pos (by omega), hb1, he]
    congr 1 <;> omega

theorem in_bounds_access_witness :
    (block_ok 4 full_hi ∧ cursor_inv 4 full_hi) ∧
    ((∃ s1, push_back 4 full_hi 5 = some s1 ∧ 0 ≤ s1._end - 1 ∧
      s1._end - 1 ≤ 2 * ((4 : Nat) : Int) - 2) ∧
    (∃ s1, push_front 4 full_hi 5 = some s1 ∧ 0 ≤ s1._begin ∧
      s1._begin ≤ 2 * ((4 : Nat) : Int) - 2) ∧
    (2 < size full_hi → 0 ≤ full_hi._begin + ((2 : Nat) : Int) ∧
      full_hi._begin + ((2 : Nat) : Int) ≤ 2 * ((4 : Nat) : Int) - 2 ∧
      (∃ s1, set 4 full_hi 2 5 = some s1) ∧ ∃ s1, sync 4 full_hi 2 = some s1) ∧
    (∃ s1, sync_all 4 full_hi = some s1) ∧
    (∀ p : Int, full_hi._begin ≤ p → p < full_hi._end →
      0 ≤ p ∧ p ≤ 2 * ((4 : Nat) : Int) - 2) ∧
    (∀ p m : Int, 0 ≤ p → p ≤ 2 * ((4 : Nat) : Int) - 2 → mirror_slot 4 p = some m →
      0 ≤ m ∧ m ≤ 2 * ((4 : Nat) : Int) - 2) ∧
    (∀ (p : Int) (x : Int), load full_hi._data p = some x →
      0 ≤ p ∧ p ≤ 2 * ((4 : Nat) : Int) - 2) ∧
    (∀ (p : Int) (x : Int) (d : List Int), store full_hi._data p x = some d →
      0 ≤ p ∧ p ≤ 2 * ((4 : Nat) : Int) - 2) ∧
    (full_hi._begin = 0 → full_hi._begin - 1 = -1 ∧ (full_hi._end = ((4 : Nat) : Int) →
      push_front_rebase 4 full_hi = (((4 : Nat) : Int) - 1, 2 * ((4 : Nat) : Int)))) ∧
    (full_hi._end = 2 * ((4 : Nat) : Int) - 1 → full_hi._end + 1 = 2 * ((4 : Nat) : Int) ∧
      (full_hi._begin = ((4 : Nat) : Int) - 1 →
        push_back_rebase 4 full_hi = (-1, ((4 : Nat) : Int))))) :=
  ⟨⟨by decide, by decide⟩, in_bounds_access 4 full_hi 5 2 (by decide) (by decide)⟩

theorem sync_valid (N : Nat) (s s1 : shift_array_t α) (i : Nat) (h : valid N s)
    (hs : sync N s i = some s1) : valid N s1 := by
  obtain ⟨hb, hc, hm⟩ := h
  obtain ⟨h0, h1, h2, h3⟩ := hc
  unfold sync at hs
  split_ifs at hs with hi
  obtain ⟨d1, hsy, hl, hd1⟩ := sync_unsafe_spec N s (s._begin.toNat + i) hb (by omega)
  rw [show s._begin + (i : Int) = ((s._begin.toNat + i : Nat) : Int) by omega, hsy,
    Option.some.injEq] at hs
  subst hs
  refine ⟨hl, ⟨h0, h1, h2, h3⟩, ?_⟩
  intro j hj
  dsimp only
  rw [hd1, hd1]
  have hmj := hm j hj
  split_ifs <;> first
    | rfl
    | omega
    | exact hmj
    | exact getElem?_idx_congr s._data (by omega)

theorem sync_all_valid (N : Nat) (s s1 : shift_array_t α) (h : valid N s)
    (hs : sync_all N s = some s1) : valid N s1 := by
  obtain ⟨hb, hc, hm⟩ := h
  obtain ⟨d2, hsy, hl, hd2⟩ := sync_all_spec N s hb hc
  rw [hsy, Option.some.injEq] at hs
  subst hs
  obtain ⟨h0, h1, h2, h3⟩ := hc
  refine ⟨hl, ⟨h0, h1, h2, h3⟩, ?_⟩
  intro j hj
  dsimp only
  rw [hd2, hd2]
  have hmj := hm j hj
  split_ifs <;> first
    | rfl
    | omega
    | exact hmj
    | exact getElem?_idx_congr s._data (by omega)

theorem call_run_valid (N : Nat) (hN : 0 < N) (cs : List (Call α)) :
    ∀ s s1 : shift_array_t α, valid N s → call_run N s cs = some s1 → valid N s1 := by
  induction cs with
  | nil =>
    intro s s1 h hr
    simp only [call_run, Option.some.injEq] at hr
    exact hr ▸ h
  | cons c cs ih =>
    intro s s1 h hr
    simp only [call_run] at hr
    cases hst : call_step N s c with
    | none => rw [hst] at hr; cases hr
    | some s2 =>
      rw [hst, Option.some_bind] at hr
      refine ih s2 s1 ?_ hr
      cases c with
      | op o => exact (step_sim N hN s o h).2 s2 hst
      | sync i => exact sync_valid N s s2 i h hst
      | sync_all => exact sync_all_valid N s s2 h hst

/-- C16: mirror consistency invariant.  In every state reachable from a fresh buffer by any
sequence of `push_front`, `push_back`, `pop_front`, `pop_back` (single or bulk), `set`,
`sync(i)`, `sync()` and `clear` that meets the preconditions and never writes in place,
storage slot `i` equals storage slot `i + N` for every `0 ≤ i ≤ N - 2`; the middle slot
`N - 1` has no partner, and `sync_unsafe` on it writes nothing. -/
theorem mirror_inv_reachable [Inhabited α] (N : Nat) (hN : 0 < N) (cs : List (Call α))
    (s : shift_array_t α) (h : call_run N (ctor N : shift_array_t α) cs = some s) :
    (∀ i : Nat, i + 2 ≤ N → s._data[i]? = s._data[i + N]?) ∧ mirror_inv N s ∧
      mirror_slot N ((N : Int) - 1) = none ∧
      ∀ t : shift_array_t α, sync_unsafe N t ((N : Int) - 1) = some t := by
  have hv := call_run_valid N hN cs (ctor N : shift_array_t α) s (ctor_valid N hN).1 h
  refine ⟨fun i hi => hv.2.2 i (by omega), hv.2.2, ?_, ?_⟩
  · unfold mirror_slot
    rw [if_neg (by omega), if_neg (by omega)]
  · intro t
    unfold sync_unsafe
    rw [if_neg (by omega), if_neg (by omega)]

theorem mirror_inv_reachable_witness :
    (0 < 4 ∧ call_run 4 (ctor 4 : shift_array_t Int) demo_calls
      = some ⟨[2, 7, 6, 9, 2, 7, 6], 2, 3⟩) ∧
    ((∀ i : Nat, i + 2 ≤ 4 → ([2, 7, 6, 9, 2, 7, 6] : List Int)[i]?
        = ([2, 7, 6, 9, 2, 7, 6] : List Int)[i + 4]?) ∧
      mirror_inv 4 (⟨[2, 7, 6, 9, 2, 7, 6], 2, 3⟩ : shift_array_t Int) ∧
      mirror_slot 4 (((4 : Nat) : Int) - 1) = none ∧
      ∀ t : shift_array_t Int, sync_unsafe 4 t (((4 : Nat) : Int) - 1) = some t) :=
  ⟨⟨by decide, by decide⟩,
    mirror_inv_reachable 4 (by decide) demo_calls ⟨[2, 7, 6, 9, 2, 7, 6], 2, 3⟩ (by decide)⟩

theorem push_back_pop_back (N : Nat) (hN : 0 < N) (s : shift_array_t α) (v : α)
    (h : valid N s) :
    ∃ s1 s2, push_back N s v = some s1 ∧ pop_back s1 = some s2 ∧
      window s2 = (window s).drop (size s + 1 - N) ∧ size s2 = min (size s + 1) N - 1 := by
  obtain ⟨s1, hs, hv, hw, hsz⟩ := push_back_valid N hN s v h
  have hwl := window_length N s h.1 h.2.1
  obtain ⟨hp, _, hpw, hps⟩ := pop_back_n_spec N s1 1 hv.1 hv.2.1 (by omega)
  refine ⟨s1, _, hs, by rw [pop_back_eq_n, hp], ?_, by rw [hps, hsz]⟩
  rw [hpw, hw, hsz]
  apply List.ext_getElem?
  intro k
  simp only [List.getElem?_take, List.getElem?_drop, List.getElem?_append, hwl]
  split_ifs <;> first | rfl | omega | skip
  rw [List.getElem?_eq_none (by omega)]

theorem push_front_pop_front (N : Nat) (hN : 0 < N) (s : shift_array_t α) (v : α)
    (h : valid N s) :
    ∃ s1 s2, push_front N s v = some s1 ∧ pop_front s1 = some s2 ∧
      window s2 = (window s).take (min (size s + 1) N - 1) ∧
      size s2 = min (size s + 1) N - 1 := by
  obtain ⟨s1, hs, hv, hw, hsz⟩ := push_front_valid N hN s v h
  obtain ⟨hp, _, hpw, hps⟩ := pop_front_n_spec N s1 1 hv.1 hv.2.1 (by omega)
  refine ⟨s1, _, hs, by rw [pop_front_eq_n, hp], ?_, by rw [hps, hsz]⟩
  rw [hpw, hw]
  apply List.ext_getElem?
  intro k
  simp only [List.getElem?_take, List.getElem?_drop, Nat.add_comm 1 k,
    List.getElem?_cons_succ]
  split_ifs <;> first | rfl | omega

/-- C20: push / pop round trip.  For every state satisfying the cursor invariants and mirror
consistency and every value `v`: if `size() < N`, `push_back(v)` followed by `pop_back()`
yields the original window contents and size, and so does `push_front(v)` followed by
`pop_front()`, whether or not the push rebased the cursors; on a full buffer the round trip
yields the original window minus its element at the opposite end (the front element for
`push_back` / `pop_back`, the back element for `push_front` / `pop_front`). -/
theorem push_pop_round_trip (N : Nat) (hN : 0 < N) (s : shift_array_t α) (v : α)
    (hb : block_ok N s) (hc : cursor_inv N s) (hm : mirror_inv N s) :
    (size s < N →
      (∃ s1 s2, push_back N s v = some s1 ∧ pop_back s1 = some s2 ∧
        window s2 = window s ∧ size s2 = size s) ∧
      (∃ s1 s2, push_front N s v = some s1 ∧ pop_front s1 = some s2 ∧
        window s2 = window s ∧ size s2 = size s)) ∧
    (size s = N →
      (∃ s1 s2, push_back N s v = some s1 ∧ pop_back s1 = some s2 ∧
        window s2 = (window s).tail ∧ size s2 = N - 1) ∧
      (∃ s1 s2, push_front N s v = some s1 ∧ pop_front s1 = some s2 ∧
        window s2 = (window s).dropLast ∧ size s2 = N - 1)) := by
  have hwl := window_length N s hb hc
  obtain ⟨b1, b2, hb1, hb2, hbw, hbs⟩ := push_back_pop_back N hN s v ⟨hb, hc, hm⟩
  obtain ⟨f1, f2, hf1, hf2, hfw, hfs⟩ := push_front_pop_front N hN s v ⟨hb, hc, hm⟩
  constructor
  · intro hlt
    refine ⟨⟨b1, b2, hb1, hb2, ?_, by omega⟩, ⟨f1, f2, hf1, hf2, ?_, by omega⟩⟩
    · rw [hbw, show size s + 1 - N = 0 by omega]
      rfl
    · rw [hfw]
      exact List.take_of_length_le (by omega)
  · intro hfull
    refine ⟨⟨b1, b2, hb1, hb2, ?_, by omega⟩, ⟨f1, f2, hf1, hf2, ?_, by omega⟩⟩
    · rw [hbw, show size s + 1 - N = 1 by omega, List.drop_one]
    · rw [hfw, List.dropLast_eq_take, hwl]
      congr 1
      omega

theorem push_pop_round_trip_witness :
    (0 < 4 ∧ block_ok 4 three_hi ∧ cursor_inv 4 three_hi ∧ mirror_inv 4 three_hi) ∧
    ((size three_hi < 4 →
      (∃ s1 s2, push_back 4 three_hi 9 = some s1 ∧ pop_back s1 = some s2 ∧
        window s2 = window three_hi ∧ size s2 = size three_hi) ∧
      (∃ s1 s2, push_front 4 three_hi 9 = some s1 ∧ pop_front s1 = some s2 ∧
        window s2 = window three_hi ∧ size s2 = size three_hi)) ∧
    (size three_hi = 4 →
      (∃ s1 s2, push_back 4 three_hi 9 = some s1 ∧ pop_back s1 = some s2 ∧
        window s2 = (window three_hi).tail ∧ size s2 = 4 - 1) ∧
      (∃ s1 s2, push_front 4 three_hi 9 = some s1 ∧ pop_front s1 = some s2 ∧
        window s2 = (window three_hi).dropLast ∧ size s2 = 4 - 1))) :=
  ⟨⟨by decide, by decide, by decide, by decide⟩,
    push_pop_round_trip 4 (by decide) three_hi 9 (by decide) (by decide) (by decide)⟩

theorem set_local (N : Nat) (s : shift_array_t α) (i : Nat) (v : α) (hb : block_ok N s)
    (hc : cursor_inv N s) (hm : mirror_local N s) (hi : i < size s) :
    ∃ s1, set N s i v = some s1 ∧ mirror_local N s1 := by
  obtain ⟨d1, hset, _, hd1, _⟩ := set_spec N s i v hb hc hi
  refine ⟨_, hset, ?_⟩
  intro j hj hwin
  dsimp only at hwin ⊢
  rw [hd1, hd1]
  obtain ⟨h0, h1, h2, h3⟩ := hc
  unfold size at hi
  split_ifs <;> first | rfl | omega | exact hm j hj hwin

/-- C17: stale mirror values outside the window are harmless.  For every state satisfying the
cursor invariants in which only the pairs with a slot inside `[begin, end)` are required to be
equal: `push_back(v)` and `push_front(v)` complete and produce the bounded-deque result (old
window with `v` appended / prepended, trimmed to `N` from the opposite end), and `push_back`,
`push_front`, `pop_front`, `pop_back` (single and bulk), `set` and `clear` all preserve this
window-local mirror property. -/
theorem stale_outside_window_harmless (N : Nat) (s : shift_array_t α) (v : α)
    (hb : block_ok N s) (hc : cursor_inv N s) (hm : mirror_local N s) :
    (∃ s1, push_back N s v = some s1 ∧
      window s1 = (window s ++ [v]).drop ((window s ++ [v]).length - N) ∧
      mirror_local N s1) ∧
    (∃ s1, push_front N s v = some s1 ∧ window s1 = (v :: window s).take N ∧
      mirror_local N s1) ∧
    (0 < size s → ∃ s1, pop_front s = some s1 ∧ mirror_local N s1) ∧
    (0 < size s → ∃ s1, pop_back s = some s1 ∧ mirror_local N s1) ∧
    (∀ n, n ≤ size s → ∃ s1, pop_front_n s n = some s1 ∧ mirror_local N s1) ∧
    (∀ n, n ≤ size s → ∃ s1, pop_back_n s n = some s1 ∧ mirror_local N s1) ∧
    (∀ i w, i < size s → ∃ s1, set N s i w = some s1 ∧ mirror_local N s1) ∧
    mirror_local N (clear N s) := by
  have hwl := window_length N s hb hc
  have hpf : ∀ n, n ≤ size s → ∃ s1, pop_front_n s n = some s1 ∧ mirror_local N s1 := by
    intro n hn
    obtain ⟨hs, _⟩ := pop_front_n_spec N s n hb hc hn
    refine ⟨_, hs, ?_⟩
    intro j hj hwin
    dsimp only at hwin ⊢
    exact hm j hj (by omega)
  have hpb : ∀ n, n ≤ size s → ∃ s1, pop_back_n s n = some s1 ∧ mirror_local N s1 := by
    intro n hn
    obtain ⟨hs, _⟩ := pop_back_n_spec N s n hb hc hn
    refine ⟨_, hs, ?_⟩
    intro j hj hwin
    dsimp only at hwin ⊢
    exact hm j hj (by omega)
  refine ⟨?_, ?_, ?_, ?_, hpf, hpb, ?_, ?_⟩
  · obtain ⟨s1, hs, _, _, hl, hw, _⟩ := push_back_local N s v hb hc hm
    refine ⟨s1, hs, ?_, hl⟩
    rw [hw, List.length_append, hwl, List.length_singleton]
  · obtain ⟨s1, hs, _, _, hl, hw, _⟩ := push_front_local N s v hb hc hm
    refine ⟨s1, hs, ?_, hl⟩
    rw [hw]
    by_cases hle : size s + 1 ≤ N
    · rw [Nat.min_eq_left hle, List.take_of_length_le (by rw [List.length_cons, hwl]),
        List.take_of_length_le (by rw [List.length_cons, hwl]; exact hle)]
    · rw [Nat.min_eq_right (by omega)]
  · intro hpos
    obtain ⟨s1, hs, hl⟩ := hpf 1 hpos
    exact ⟨s1, by rw [pop_front_eq_n, hs], hl⟩
  · intro hpos
    obtain ⟨s1, hs, hl⟩ := hpb 1 hpos
    exact ⟨s1, by rw [pop_back_eq_n, hs], hl⟩
  · intro i w hi
    exact set_local N s i w hb hc hm hi
  · intro j hj hwin
    unfold clear at hwin
    dsimp only at hwin
    omega

theorem stale_outside_window_harmless_witness :
    (block_ok 4 stale_outside ∧ cursor_inv 4 stale_outside ∧ mirror_local 4 stale_outside ∧
      ¬ mirror_inv 4 stale_outside) ∧
    ((∃ s1, push_back 4 stale_outside 7 = some s1 ∧
      window s1 = (window stale_outside ++ [7]).drop ((window stale_outside ++ [7]).length - 4) ∧
      mirror_local 4 s1) ∧
    (∃ s1, push_front 4 stale_outside 7 = some s1 ∧
      window s1 = (7 :: window stale_outside).take 4 ∧ mirror_local 4 s1) ∧
    (0 < size stale_outside → ∃ s1, pop_front stale_outside = some s1 ∧ mirror_local 4 s1) ∧
    (0 < size stale_outside → ∃ s1, pop_back stale_outside = some s1 ∧ mirror_local 4 s1) ∧
    (∀ n, n ≤ size stale_outside →
      ∃ s1, pop_front_n stale_outside n = some s1 ∧ mirror_local 4 s1) ∧
    (∀ n, n ≤ size stale_outside →
      ∃ s1, pop_back_n stale_outside n = some s1 ∧ mirror_local 4 s1) ∧
    (∀ i w, i < size stale_outside →
      ∃ s1, set 4 stale_outside i w = some s1 ∧ mirror_local 4 s1) ∧
    mirror_local 4 (clear 4 stale_outside)) :=
  ⟨⟨by decide, by decide, by decide, by decide⟩,
    stale_outside_window_harmless 4 stale_outside 7 (by decide) (by decide) (by decide)⟩

theorem heap_block_set_ne (H : heap_t α) (a : Nat) (x : Option (List α)) (p : Option Nat)
    (h : p ≠ some a) : heap_block (H.set a x) p = heap_block H p := by
  cases p with
  | none => rfl
  | some c =>
    have hc : a ≠ c := fun e => h (by rw [e])
    simp only [heap_block, Option.some_bind]
    rw [List.getElem?_set_ne hc]

theorem heap_block_set_eq (H : heap_t α) (a : Nat) (d : List α) (h : a < H.length) :
    heap_block (H.set a (some d)) (some a) = some d := by
  simp only [heap_block, Option.some_bind]
  rw [List.getElem?_set, if_pos rfl, if_pos h]
  rfl

theorem heap_block_lt (H : heap_t α) (a : Nat) (d : List α)
    (h : heap_block H (some a) = some d) : a < H.length := by
  by_contra hlt
  simp only [heap_block, Option.some_bind] at h
  rw [List.getElem?_eq_none (by omega)] at h
  cases h

theorem view_some (H : heap_t α) (o : object_t) (s : shift_array_t α)
    (h : view H o = some s) :
    ∃ a, o._data = some a ∧ heap_block H (some a) = some s._data ∧
      s._begin = o._begin ∧ s._end = o._end := by
  unfold view at h
  cases hd : o._data with
  | none =>
    rw [hd] at h
    cases h
  | some a =>
    rw [hd] at h
    cases hb : heap_block H (some a) with
    | none =>
      rw [hb] at h
      cases h
    | some d =>
      rw [hb, Option.map_some', Option.some.injEq] at h
      subst h
      exact ⟨a, rfl, hb, rfl, rfl⟩

theorem view_set_ne (H : heap_t α) (a : Nat) (x : Option (List α)) (o : object_t)
    (h : o._data ≠ some a) : view (H.set a x) o = view H o := by
  unfold view
  rw [heap_block_set_ne H a x o._data h]

theorem on_heap_frame (f : shift_array_t α → Option (shift_array_t α)) (H H2 : heap_t α)
    (o o2 o1 : object_t) (h : on_heap f H o = some (H2, o2)) (hne : o1._data ≠ o._data) :
    view H2 o1 = view H o1 ∧ o2._data = o._data := by
  unfold on_heap at h
  cases hd : o._data with
  | none =>
    rw [hd] at h
    cases h
  | some a =>
    rw [hd] at h hne
    dsimp only at h
    cases hv : view H o with
    | none =>
      rw [hv] at h
      cases h
    | some s =>
      rw [hv, Option.some_bind] at h
      cases hf : f s with
      | none =>
        rw [hf] at h
        cases h
      | some s1 =>
        rw [hf, Option.map_some', Option.some.injEq, Prod.mk.injEq] at h
        obtain ⟨h1, h2⟩ := h
        subst h1 h2
        exact ⟨view_set_ne H a _ o1 hne, rfl⟩

theorem objs_get (l : List object_t) (x : Nat) (o : object_t) (h : l[x]? = some o) :
    x < l.length ∧ l.getD x null_object = o := by
  have hlt : x < l.length := by
    by_contra hc
    rw [List.getElem?_eq_none (by omega)] at h
    cases h
  refine ⟨hlt, ?_⟩
  rw [List.getD_eq_getElem?_getD, h]
  rfl

theorem object_eta (o : object_t) : object_t.mk o._data o._begin o._end = o := by
  cases o
  rfl

theorem well_formed_pair (M : memory_t α) (hw : well_formed M) (x y : Nat) (ox oy : object_t)
    (hx : M.objs[x]? = some ox) (hy : M.objs[y]? = some oy) (hne : x ≠ y) :
    (ox._data = none ∨ (heap_block M.heap ox._data).isSome = true) ∧
      (ox._data = none ∨ ox._data ≠ oy._data) := by
  obtain ⟨hxl, hxg⟩ := objs_get M.objs x ox hx
  obtain ⟨hyl, hyg⟩ := objs_get M.objs y oy hy
  have h1 := hw.1 x hxl
  have h2 := hw.2 x hxl y hyl hne
  rw [hxg] at h1 h2
  rw [hyg] at h2
  exact ⟨h1, h2⟩

theorem heap_delete_spec (H : heap_t α) (p : Option Nat)
    (h : p = none ∨ (heap_block H p).isSome = true) :
    ∃ H1, heap_delete H p = some H1 ∧ heap_block H1 p = none ∧
      ∀ q : Option Nat, q ≠ p → heap_block H1 q = heap_block H q := by
  cases p with
  | none => exact ⟨H, rfl, rfl, fun _ _ => rfl⟩
  | some a =>
    rcases h with h | h
    · cases h
    · obtain ⟨d, hd⟩ := Option.isSome_iff_exists.mp h
      refine ⟨H.set a none, ?_, ?_, ?_⟩
      · unfold heap_delete
        dsimp only
        rw [hd]
      · simp only [heap_block, Option.some_bind]
        rw [List.getElem?_set, if_pos rfl]
        split_ifs <;> rfl
      · intro q hq
        exact heap_block_set_ne H a none q hq

theorem view_of_block_eq (H H1 : heap_t α) (o : object_t)
    (h : heap_block H1 o._data = heap_block H o._data) : view H1 o = view H o := by
  unfold view
  rw [h]

theorem view_data_ne_none (H : heap_t α) (o : object_t) (s : shift_array_t α)
    (h : view H o = some s) : o._data ≠ none := by
  obtain ⟨a, ha, _⟩ := view_some H o s h
  rw [ha]
  exact fun e => by cases e

theorem view_size (H : heap_t α) (o : object_t) (s : shift_array_t α)
    (h : view H o = some s) : object_size o = size s := by
  obtain ⟨_, _, _, hb, he⟩ := view_some H o s h
  unfold object_size size
  rw [hb, he]

theorem move_ctor_spec (M : memory_t α) (other : Nat) (o : object_t) (so : shift_array_t α)
    (ho : M.objs[other]? = some o) (hvo : view M.heap o = some so) :
    ∃ M1, move_ctor M other = some M1 ∧ M1.heap = M.heap ∧
      M1.objs[M.objs.length]? = some o ∧ object_view M1 M.objs.length = some so ∧
      M1.objs[other]? = some null_object := by
  obtain ⟨hlt, _⟩ := objs_get M.objs other o ho
  have hnew : ((M.objs ++ [o]).set other null_object)[M.objs.length]? = some o := by
    rw [List.getElem?_set_ne (by omega), List.getElem?_append_right (Nat.le_refl _),
      Nat.sub_self]
    rfl
  refine ⟨⟨M.heap, (M.objs ++ [o]).set other null_object⟩, ?_, rfl, hnew, ?_, ?_⟩
  · unfold move_ctor
    rw [ho, Option.map_some', object_eta]
  · unfold object_view
    dsimp only
    rw [hnew, Option.some_bind, hvo]
  · dsimp only
    rw [List.getElem?_set, if_pos rfl, if_pos (by rw [List.length_append]; omega)]

theorem move_assign_spec (M : memory_t α) (hw : well_formed M) (self other : Nat)
    (s o : object_t) (so : shift_array_t α) (hne : self ≠ other)
    (hs : M.objs[self]? = some s) (ho : M.objs[other]? = some o)
    (hvo : view M.heap o = some so) :
    ∃ M1, move_assign M self other = some M1 ∧ M1.objs[self]? = some o ∧
      object_view M1 self = some so ∧ M1.objs[other]? = some null_object ∧
      heap_block M1.heap s._data = none := by
  obtain ⟨hsl, _⟩ := objs_get M.objs self s hs
  obtain ⟨hol, _⟩ := objs_get M.objs other o ho
  obtain ⟨hlive, hexcl⟩ := well_formed_pair M hw self other s o hs ho hne
  obtain ⟨H1, hdel, hfree, hframe⟩ := heap_delete_spec M.heap s._data hlive
  have hdata : o._data ≠ s._data := by
    rcases hexcl with h | h
    · rw [h]
      exact view_data_ne_none M.heap o so hvo
    · exact fun e => h e.symm
  have hself : ((M.objs.set self o).set other null_object)[self]? = some o := by
    rw [List.getElem?_set_ne (fun e => hne e.symm), List.getElem?_set, if_pos rfl, if_pos hsl]
  refine ⟨⟨H1, (M.objs.set self o).set other null_object⟩, ?_, hself, ?_, ?_, hfree⟩
  · unfold move_assign
    rw [hs, ho, Option.some_bind, Option.some_bind, hdel, Option.map_some', object_eta]
  · unfold object_view
    dsimp only
    rw [hself, Option.some_bind, view_of_block_eq M.heap H1 o (hframe o._data hdata), hvo]
  · dsimp only
    rw [List.getElem?_set, if_pos rfl, if_pos (by rw [List.length_set]; exact hol)]

/-- C14 as stated fails when the source is the destination itself: for the single full buffer
of capacity 4 (reached by four `push_back` calls on a fresh buffer), the move-assignment
`a = std::move(a)` releases the block and leaves the object null, so the destination does
not hold the source's former block, cursors or window. -/
theorem self_move_assign_loses_block :
    call (fun s => run 4 s [Op.push_back 1, Op.push_back 2, Op.push_back 3, Op.push_back 4])
        (ctor_new 4 ⟨[], []⟩) 0 = some demo_single ∧
      well_formed demo_single ∧
      object_view demo_single 0 = some full_hi ∧
      move_assign demo_single 0 0 = some ⟨[none], [null_object]⟩ ∧
      object_view (⟨[none], [null_object]⟩ : memory_t Int) 0 = none ∧
      (move_assign demo_single 0 0).bind (fun M => object_view M 0) ≠ some full_hi :=
  ⟨by decide, by decide, by decide, by decide, by decide, by decide⟩

/-- C14, amended: move-construction from any valid source, and move-assignment from any valid
source into any other object (`this != &other`, in a memory where every object is null or
owns a live block and no two objects share a block), give the destination exactly the
source's former block and cursors, hence its former window and size, and leave the source
with null block and cursors, so that the source reports `size() == 0` and `empty() == true`
and its destructor releases nothing.  Move-assignment first releases the block the
destination held. -/
theorem move_transfers (M : memory_t α) (other : Nat) (o : object_t)
    (so : shift_array_t α) (ho : M.objs[other]? = some o) (hvo : view M.heap o = some so) :
    (∃ M1, move_ctor M other = some M1 ∧ M1.heap = M.heap ∧
      M1.objs[M.objs.length]? = some o ∧ object_view M1 M.objs.length = some so ∧
      (object_view M1 M.objs.length).map window = some (window so) ∧
      (M1.objs[M.objs.length]?).map object_size = some (size so) ∧
      M1.objs[other]? = some null_object) ∧
    (∀ (self : Nat) (s : object_t), well_formed M → self ≠ other → M.objs[self]? = some s →
      ∃ M1, move_assign M self other = some M1 ∧ M1.objs[self]? = some o ∧
        object_view M1 self = some so ∧
        (object_view M1 self).map window = some (window so) ∧
        (M1.objs[self]?).map object_size = some (size so) ∧
        M1.objs[other]? = some null_object ∧ heap_block M1.heap s._data = none) ∧
    (null_object._data = none ∧ null_object._begin = 0 ∧ null_object._end = 0 ∧
      object_size null_object = 0 ∧ object_empty null_object = true ∧
      ∀ (M0 : memory_t α) (x : Nat), M0.objs[x]? = some null_object →
        (dtor M0 x).map (fun M1 => M1.heap) = some M0.heap) := by
  have hsz := view_size M.heap o so hvo
  refine ⟨?_, ?_, ⟨rfl, rfl, rfl, by decide, by decide, ?_⟩⟩
  · obtain ⟨M1, hm, hh, hn, hv, hnull⟩ := move_ctor_spec M other o so ho hvo
    exact ⟨M1, hm, hh, hn, hv, by rw [hv]; rfl, by rw [hn, Option.map_some', hsz], hnull⟩
  · intro self s hw hne hs
    obtain ⟨M1, hm, hn, hv, hnull, hfree⟩ := move_assign_spec M hw self other s o so hne hs ho hvo
    exact ⟨M1, hm, hn, hv, by rw [hv]; rfl, by rw [hn, Option.map_some', hsz], hnull, hfree⟩
  · intro M0 x hx
    unfold dtor
    rw [hx]
    rfl

theorem move_transfers_witness :
    (well_formed demo_memory ∧ demo_memory.objs[0]? = some ⟨some 0, 3, 7⟩ ∧
      view demo_memory.heap ⟨some 0, 3, 7⟩ = some full_hi) ∧
    ((∃ M1, move_ctor demo_memory 0 = some M1 ∧ M1.heap = demo_memory.heap ∧
      M1.objs[demo_memory.objs.length]? = some ⟨some 0, 3, 7⟩ ∧
      object_view M1 demo_memory.objs.length = some full_hi ∧
      (object_view M1 demo_memory.objs.length).map window = some (window full_hi) ∧
      (M1.objs[demo_memory.objs.length]?).map object_size = some (size full_hi) ∧
      M1.objs[0]? = some null_object) ∧
    (∀ (self : Nat) (s : object_t), well_formed demo_memory → self ≠ 0 →
      demo_memory.objs[self]? = some s →
      ∃ M1, move_assign demo_memory self 0 = some M1 ∧ M1.objs[self]? = some ⟨some 0, 3, 7⟩ ∧
        object_view M1 self = some full_hi ∧
        (object_view M1 self).map window = some (window full_hi) ∧
        (M1.objs[self]?).map object_size = some (size full_hi) ∧
        M1.objs[0]? = some null_object ∧ heap_block M1.heap s._data = none) ∧
    (null_object._data = none ∧ null_object._begin = 0 ∧ null_object._end = 0 ∧
      object_size null_object = 0 ∧ object_empty null_object = true ∧
      ∀ (M0 : memory_t Int) (x : Nat), M0.objs[x]? = some null_object →
        (dtor M0 x).map (fun M1 => M1.heap) = some M0.heap)) :=
  ⟨⟨by decide, by decide, by decide⟩,
    move_transfers demo_memory 0 ⟨some 0, 3, 7⟩ full_hi (by decide) (by decide)⟩

theorem heap_memcpy_spec (N : Nat) (H : heap_t α) (a c : Nat) (bd bs : List α)
    (hba : heap_block H (some a) = some bd) (hbc : heap_block H (some c) = some bs)
    (hd : bd.length = 2 * N - 1) (hs : bs.length = 2 * N - 1) :
    heap_memcpy N H (some a) (some c) = some (H.set a (some bs)) := by
  unfold heap_memcpy
  dsimp only
  rw [hba, hbc]
  dsimp only
  rw [if_pos ⟨by omega, by omega⟩, List.take_of_length_le (by omega),
    List.drop_eq_nil_of_le (by omega), List.append_nil]

theorem heap_new_spec [Inhabited α] (N : Nat) (H : heap_t α) (o : object_t)
    (s : shift_array_t α) (ho : view H o = some s) :
    view (heap_new N H).1 o = some s ∧ some (heap_new N H).2 ≠ o._data ∧
      heap_block (heap_new N H).1 (some (heap_new N H).2)
        = some (List.replicate (2 * N - 1) default) := by
  obtain ⟨c, hc, hbc, hob, hoe⟩ := view_some H o s ho
  have hlt := heap_block_lt H c _ hbc
  refine ⟨?_, ?_, ?_⟩
  · rw [← ho]
    unfold view heap_new
    rw [hc]
    simp only [heap_block, Option.some_bind]
    rw [List.getElem?_append_left hlt]
  · rw [hc]
    unfold heap_new
    intro h
    rw [Option.some.injEq] at h
    omega
  · unfold heap_new
    simp only [heap_block, Option.some_bind]
    rw [List.getElem?_append_right (Nat.le_refl _), Nat.sub_self]
    rfl

theorem call_frame (f : shift_array_t α → Option (shift_array_t α)) (M M2 : memory_t α)
    (x y : Nat) (ox oy : object_t) (h : call f M x = some M2) (hx : M.objs[x]? = some ox)
    (hy : M.objs[y]? = some oy) (hne : y ≠ x) (hd : oy._data ≠ ox._data) :
    object_view M2 y = object_view M y := by
  unfold call at h
  rw [hx, Option.some_bind] at h
  cases hr : on_heap f M.heap ox with
  | none =>
    rw [hr] at h
    cases h
  | some r =>
    rw [hr, Option.map_some', Option.some.injEq] at h
    subst h
    obtain ⟨r1, r2⟩ := r
    unfold object_view
    dsimp only
    rw [List.getElem?_set_ne (fun e => hne e.symm), hy, Option.some_bind, Option.some_bind]
    exact (on_heap_frame f M.heap r1 ox r2 oy hr hd).1

/-- Copy-assignment into a live destination: the destination then denotes the source's state,
the source is unchanged, and (for two different objects with blocks of their own) any later
run of calls on one of them leaves the other's state unchanged. -/
theorem copy_assign_deep (N : Nat) (M : memory_t α) (self other : Nat) (s o : object_t)
    (ss so : shift_array_t α) (hs : M.objs[self]? = some s) (ho : M.objs[other]? = some o)
    (hvs : view M.heap s = some ss) (hvo : view M.heap o = some so)
    (hbs : block_ok N ss) (hbo : block_ok N so) (hown : self ≠ other → s._data ≠ o._data) :
    ∃ M1, copy_assign N M self other = some M1 ∧
      object_view M1 self = some so ∧ object_view M1 other = some so ∧
      (self ≠ other →
        (∀ (ops : List (Op α)) (M2 : memory_t α),
          call (fun t => run N t ops) M1 self = some M2 → object_view M2 other = some so) ∧
        (∀ (ops : List (Op α)) (M2 : memory_t α),
          call (fun t => run N t ops) M1 other = some M2 → object_view M2 self = some so)) := by
  obtain ⟨a, ha, hba, _, _⟩ := view_some M.heap s ss hvs
  obtain ⟨c, hc, hbc, hob, hoe⟩ := view_some M.heap o so hvo
  obtain ⟨hsl, _⟩ := objs_get M.objs self s hs
  unfold block_ok at hbs hbo
  have hcpy := heap_memcpy_spec N M.heap a c ss._data so._data hba hbc hbs hbo
  have hso : (⟨so._data, o._begin, o._end⟩ : shift_array_t α) = so := by
    rw [← hob, ← hoe]
  have hnew : (M.objs.set self ⟨s._data, o._begin, o._end⟩)[self]?
      = some ⟨s._data, o._begin, o._end⟩ := by
    rw [List.getElem?_set, if_pos rfl, if_pos hsl]
  have hvnew : view (M.heap.set a (some so._data)) ⟨s._data, o._begin, o._end⟩ = some so := by
    unfold view
    dsimp only
    rw [ha, heap_block_set_eq M.heap a so._data (heap_block_lt M.heap a _ hba), Option.map_some',
      hso]
  have hvself : object_view (⟨M.heap.set a (some so._data),
      M.objs.set self ⟨s._data, o._begin, o._end⟩⟩ : memory_t α) self = some so := by
    unfold object_view
    dsimp only
    rw [hnew, Option.some_bind, hvnew]
  have hother : self ≠ other →
      (M.objs.set self ⟨s._data, o._begin, o._end⟩)[other]? = some o := by
    intro hne
    rw [List.getElem?_set_ne hne, ho]
  have hvother : object_view (⟨M.heap.set a (some so._data),
      M.objs.set self ⟨s._data, o._begin, o._end⟩⟩ : memory_t α) other = some so := by
    by_cases hne : self = other
    · rw [← hne]
      exact hvself
    · unfold object_view
      dsimp only
      rw [hother hne, Option.some_bind,
        view_set_ne M.heap a _ o (fun e => hown hne (by rw [ha, e])), hvo]
  refine ⟨_, ?_, hvself, hvother, ?_⟩
  · unfold copy_assign
    rw [hs, ho, Option.some_bind, Option.some_bind, ha, hc, hcpy, Option.map_some']
  · intro hne
    constructor
    · intro ops M2 h
      rw [call_frame _ _ M2 self other _ o h hnew (hother hne) (fun e => hne e.symm)
        (fun e => hown hne e.symm), hvother]
    · intro ops M2 h
      rw [call_frame _ _ M2 other self o _ h (hother hne) hnew hne (hown hne), hvself]

/-- Copy-construction from any valid source: the new object (at position `M.objs.length`)
denotes the source's state, the source is unchanged, and any later run of calls on one of
the two leaves the other's state unchanged. -/
theorem copy_ctor_deep [Inhabited α] (N : Nat) (M : memory_t α) (other : Nat) (o : object_t)
    (so : shift_array_t α) (ho : M.objs[other]? = some o) (hvo : view M.heap o = some so)
    (hbo : block_ok N so) :
    ∃ M1, copy_ctor N M other = some M1 ∧
      object_view M1 M.objs.length = some so ∧ object_view M1 other = some so ∧
      (∀ (ops : List (Op α)) (M2 : memory_t α),
        call (fun t => run N t ops) M1 M.objs.length = some M2 →
          object_view M2 other = some so) ∧
      (∀ (ops : List (Op α)) (M2 : memory_t α),
        call (fun t => run N t ops) M1 other = some M2 →
          object_view M2 M.objs.length = some so) := by
  obtain ⟨hol, _⟩ := objs_get M.objs other o ho
  obtain ⟨hvo1, hne1, hblk⟩ := heap_new_spec N M.heap o so hvo
  have hne : M.objs.length ≠ other := by omega
  have hfresh : view (heap_new N M.heap).1 (⟨some (heap_new N M.heap).2, 0, 0⟩ : object_t)
      = some ⟨List.replicate (2 * N - 1) default, 0, 0⟩ := by
    unfold view
    dsimp only
    rw [hblk]
    rfl
  obtain ⟨M1, hc, hv1, hv2, hind⟩ := copy_assign_deep N
    ⟨(heap_new N M.heap).1, M.objs ++ [⟨some (heap_new N M.heap).2, 0, 0⟩]⟩
    M.objs.length other ⟨some (heap_new N M.heap).2, 0, 0⟩ o _ so
    (by dsimp only; rw [List.getElem?_append_right (Nat.le_refl _), Nat.sub_self]; rfl)
    (by dsimp only; rw [List.getElem?_append_left hol, ho])
    hfresh hvo1 (by unfold block_ok; simp) hbo (fun _ => hne1)
  exact ⟨M1, hc, hv1, hv2, (hind hne).1, (hind hne).2⟩

/-- C13: the failing input.  Object 1 is constructed and filled with 1, 2, 3, 4; object 0 is
constructed and then moved from (into object 2), so its `_data` is null.  The source, object
1, is valid, yet copy-assignment `object0 = object1` does not complete: `operator=` passes
the null `_data` to `memcpy` and allocates nothing.  On the same memory copy-construction
from object 1, copy-assignment into the live object 2, move-assignment into object 0 and the
destructor of object 0 all complete, and self copy-assignment of object 1 changes nothing. -/
theorem copy_assign_into_moved_from_fails :
    (call (fun s => run 4 s [Op.push_back 1, Op.push_back 2, Op.push_back 3, Op.push_back 4])
        (ctor_new 4 (ctor_new 4 ⟨[], []⟩)) 1).bind (fun M => move_ctor M 0)
      = some demo_moved ∧
    well_formed demo_moved ∧
    object_view demo_moved 1 = some full_hi ∧ valid 4 full_hi ∧
    demo_moved.objs[0]? = some null_object ∧
    copy_assign 4 demo_moved 0 1 = none ∧
    (copy_ctor 4 demo_moved 1).bind (fun M => object_view M 3) = some full_hi ∧
    (copy_assign 4 demo_moved 2 1).bind (fun M => object_view M 2) = some full_hi ∧
    (move_assign demo_moved 0 1).bind (fun M => object_view M 0) = some full_hi ∧
    (dtor demo_moved 0).isSome = true ∧
    copy_assign 4 demo_moved 1 1 = some demo_moved :=
  ⟨by decide, by decide, by decide, by decide, by decide, by decide, by decide, by decide,
    by decide, by decide, by decide⟩

end ShiftArray
